import Mathlib

/-
Verification of the swarm coordination core of rgym_exp:
a shallow embedding of src/rgym_exp/src/manager.py (SwarmGameManager) and
src/rgym_exp/src/data.py (ReasoningGymDataManager), with theorems about the
reward aggregation hook, the submission gate, the retry policy, the winner
selection, the round-sync backoff loop and the tree transplant merge.

Python floats are modelled as rationals, Python ints as Int, Python dicts as
insertion-ordered association lists (CPython dicts preserve insertion order,
and updates keep the original position of a key).
-/

namespace RGym

/-! ### Association lists (insertion-ordered Python dicts) -/

def alookup {α β : Type} [DecidableEq α] : List (α × β) → α → Option β
  | [], _ => none
  | (k, v) :: rest, a => if a = k then some v else alookup rest a

def alookupD {α β : Type} [DecidableEq α] (m : List (α × β)) (a : α) (d : β) : β :=
  (alookup m a).getD d

def aupdate {α β : Type} [DecidableEq α] : List (α × β) → α → β → List (α × β)
  | [], a, v => [(a, v)]
  | (k, w) :: rest, a, v =>
    if a = k then (k, v) :: rest else (k, w) :: aupdate rest a v

/-! ### Python min and max on two arguments

CPython min(a, b) keeps a unless b is strictly smaller; max(a, b) keeps a
unless b is strictly greater.  (Defined by an explicit comparison so that
they evaluate by kernel reduction.) -/

def pyMin (x y : ℚ) : ℚ := if y < x then y else x

def pyMax (x y : ℚ) : ℚ := if x < y then y else x

/-! ### Manager state (SwarmGameManager, src/rgym_exp/src/manager.py)

Fields mirror the submission-control attributes set in __init__ (lines 84-92)
plus the two GameState fields the hooks read (state.round, state.stage). -/

structure MgrConfig where
  peerId : String
  submitFrequency : ℚ
deriving DecidableEq

structure MgrState where
  round : Int
  stage : Nat
  batchedSignals : ℚ
  submittedThisRound : Bool
  cachedZeroRewardRounds : List Int
  pendingRewards : List Int
  simZeroCache : List Int
  timeSinceSubmit : ℚ
deriving DecidableEq

/-- The state set up in __init__ (manager.py lines 84-92): all caches empty,
batched_signals 0.0, sim_zero_cache a copy of the (empty) zero cache, and
time_since_submit initialized to the startup wall-clock time. -/
def initState (round : Int) (stage : Nat) (startTime : ℚ) : MgrState :=
  ⟨round, stage, 0, false, [], [], [], startTime⟩

/-! ### Reward ledger and _get_total_rewards_by_agent (manager.py 113-124)

The ledger is stage-indexed: each stage holds a dict agent -> dict batch ->
list of generation-reward lists.  The method iterates stages 0..state.stage-1
and accumulates, per agent, the sum of all generation rewards. -/

abbrev Ledger := List (List (String × List (Int × List (List ℚ))))

/-- Python: tot = 0; for generation_rewards in batch_rewards: tot += sum(generation_rewards). -/
def sumBatch (batch : List (List ℚ)) : ℚ :=
  (batch.map List.sum).sum

/-- rewards_by_agent[agent_id] += tot on a defaultdict(int): insert-or-add,
keeping insertion order (first touch appends at the end). -/
def addAgentRewards : List (String × ℚ) → String → ℚ → List (String × ℚ)
  | [], a, v => [(a, v)]
  | (k, w) :: rest, a, v =>
    if k = a then (k, w + v) :: rest else (k, w) :: addAgentRewards rest a v

def accumStage (m : List (String × ℚ)) (stageRewards : List (String × List (Int × List (List ℚ)))) :
    List (String × ℚ) :=
  stageRewards.foldl
    (fun m ab => ab.2.foldl (fun m bb => addAgentRewards m ab.1 (sumBatch bb.2)) m) m

/-- _get_total_rewards_by_agent (manager.py 113-124): iterate the completed
stages range(state.stage) of the ledger and accumulate per-agent totals. -/
def totalRewardsByAgent (stage : Nat) (ledger : Ledger) : List (String × ℚ) :=
  (ledger.take stage).foldl accumStage []

/-! ### Winner selection: Python max(items, key=lambda x: x[1])

CPython max keeps the current best and replaces it only on a strictly greater
key, so the first-seen maximum wins ties. -/

def maxFold (best : String × ℚ) : List (String × ℚ) → String × ℚ
  | [] => best
  | y :: ys => maxFold (if best.2 < y.2 then y else best) ys

def maxByValue : List (String × ℚ) → Option (String × ℚ)
  | [] => none
  | x :: xs => some (maxFold x xs)

/-! ### RewardAggregator (manager.py 161-172) -/

/-- Lines 162-166: per_round_reward before the int(max(.,0)) coercion.
In the positive branch the cache length used is the length at entry. -/
def perRoundValue (cache : List Int) (tot : ℚ) : ℚ :=
  if 0 < tot then tot + 1 + cache.length else cache.length

/-- Lines 162-170: the new sim_zero_cache.  Positive total clears it; otherwise
the current round is appended if absent, popping the head beyond length 3. -/
def aggregateCache (round : Int) (cache : List Int) (tot : ℚ) : List Int :=
  if 0 < tot then []
  else if round ∈ cache then cache
  else if 3 < (cache ++ [round]).length then (cache ++ [round]).drop 1
  else cache ++ [round]

/-- Line 172: per_round_reward = int(max(per_round_reward, 0)).  Python int()
truncates toward zero, which on the non-negative max equals the floor. -/
def perRoundInt (cache : List Int) (tot : ℚ) : Int :=
  ⌊pyMax (perRoundValue cache tot) 0⌋

/-- State after lines 161-174: cache update, queue append, batched accumulate. -/
def stAfterAgg (st : MgrState) (tot : ℚ) : MgrState :=
  { st with
    simZeroCache := aggregateCache st.round st.simZeroCache tot,
    pendingRewards := st.pendingRewards ++ [perRoundInt st.simZeroCache tot],
    batchedSignals := st.batchedSignals + ((perRoundInt st.simZeroCache tot : Int) : ℚ) }

/-! ### _submit_current_rewards (manager.py 205-266)

RPC outcomes are supplied as oracle lists of Booleans: attempt i of a loop
succeeds iff the list holds true at index i (a missing index means failure).
The final health check is fire-and-forget and carries no coordination state,
so it is not modelled. -/

/-- One bounded retry loop of 3 attempts: number of attempts made and whether
one succeeded (the loop breaks on the first success). -/
def attemptsOf (ok : List Bool) : Nat × Bool :=
  if ok.getD 0 false then (1, true)
  else if ok.getD 1 false then (2, true)
  else if ok.getD 2 false then (3, true)
  else (3, false)

structure SubmitOut where
  success : Bool
  st : MgrState
  rewardAttempts : Nat
  winnersAttempts : Nat
  submittedWinnersLists : List (List String)
  rewardAmount : Int
deriving DecidableEq

/-- _submit_current_rewards: max over rewards_by_agent (a ValueError on an
empty dict is caught by the outer except, returning False with no RPC
attempted), final_rewards = my_rewards + len(cached_zero_reward_rounds),
then the two 3-attempt retry loops; on full success cached_zero_reward_rounds
is synced from sim_zero_cache and submitted_this_round is set. -/
def submitCurrentRewards (st : MgrState) (myRewards : Int)
    (rewardsByAgent : List (String × ℚ)) (rOk wOk : List Bool) : SubmitOut :=
  match maxByValue rewardsByAgent with
  | none => ⟨false, st, 0, 0, [], 0⟩
  | some (maxAgent, _) =>
    let finalRewards : Int := myRewards + (st.cachedZeroRewardRounds.length : Int)
    match attemptsOf rOk with
    | (ra, false) => ⟨false, st, ra, 0, [], finalRewards⟩
    | (ra, true) =>
      match attemptsOf wOk with
      | (wa, false) => ⟨false, st, ra, wa, List.replicate wa [maxAgent], finalRewards⟩
      | (wa, true) =>
        ⟨true,
         { st with cachedZeroRewardRounds := st.simZeroCache, submittedThisRound := true },
         ra, wa, List.replicate wa [maxAgent], finalRewards⟩

/-! ### _hook_after_rewards_updated (manager.py 152-203) -/

structure HookInput where
  now : ℚ
  ledger : Ledger
  rewardOk : List Bool
  winnersOk : List Bool

structure HookResult where
  st : MgrState
  queued : Option Int
  flushed : Bool
  submit : Option SubmitOut
deriving DecidableEq

/-- Lines 181-201: aggregate the pending queue, clear cached_zero_reward_rounds,
invoke _submit_current_rewards; on success reset the timer and clear the queue
and batched signal, on failure restore cached_zero_reward_rounds from the
simulated cache. -/
def hookFlushGo (st1 : MgrState) (now : ℚ) (rewardsByAgent : List (String × ℚ))
    (rOk wOk : List Bool) (q : Int) : HookResult :=
  let st2 := { st1 with cachedZeroRewardRounds := [] }
  let sr := submitCurrentRewards st2 st1.pendingRewards.sum rewardsByAgent rOk wOk
  if sr.success then
    ⟨{ sr.st with timeSinceSubmit := now, pendingRewards := [], batchedSignals := 0 },
     some q, true, some sr⟩
  else
    ⟨{ sr.st with cachedZeroRewardRounds := sr.st.simZeroCache }, some q, true, some sr⟩

/-- Lines 176-201: the time gate (strictly less than submit_frequency hours
returns early) followed by the flush. -/
def hookFlush (cfg : MgrConfig) (st1 : MgrState) (now : ℚ)
    (rewardsByAgent : List (String × ℚ)) (rOk wOk : List Bool) (q : Int) : HookResult :=
  if (now - st1.timeSinceSubmit) / 3600 < cfg.submitFrequency then ⟨st1, some q, false, none⟩
  else if st1.pendingRewards.isEmpty then ⟨st1, some q, false, none⟩
  else hookFlushGo st1 now rewardsByAgent rOk wOk q

/-- _hook_after_rewards_updated (manager.py 152-203).  An out-of-range stage
raises inside _get_total_rewards_by_agent and is swallowed by the outer
except (state unchanged); an empty rewards_by_agent returns early (line 156). -/
def hookAfterRewardsUpdated (cfg : MgrConfig) (st : MgrState) (inp : HookInput) : HookResult :=
  if st.stage ≤ inp.ledger.length then
    let m := totalRewardsByAgent st.stage inp.ledger
    if m.isEmpty then ⟨st, none, false, none⟩
    else
      let tot := alookupD m cfg.peerId 0
      hookFlush cfg (stAfterAgg st tot) inp.now m inp.rewardOk inp.winnersOk
        (perRoundInt st.simZeroCache tot)
  else ⟨st, none, false, none⟩

def runHooks (cfg : MgrConfig) (st : MgrState) (inps : List HookInput) : MgrState :=
  inps.foldl (fun s i => (hookAfterRewardsUpdated cfg s i).st) st

/-- Whether the call performed a fully successful flush. -/
def flushSucceeded (r : HookResult) : Bool :=
  match r.submit with
  | some sr => sr.success
  | none => false

/-- The reward amount passed to the submit_reward RPC, when one was issued. -/
def flushAmount (r : HookResult) : Option Int :=
  r.submit.map (fun sr => sr.rewardAmount)

/-! ### _try_submit_to_chain (manager.py 127-149), the fallback path

The reward RPC and the winners RPC may each raise; the except swallows the
error.  batched_signals is zeroed right after the reward RPC succeeds, and the
timer is reset only after the winners RPC also succeeds. -/

structure TryOut where
  st : MgrState
  rewardAttempted : Bool
  winnersAttempted : Bool
deriving DecidableEq

def trySubmitToChain (cfg : MgrConfig) (st : MgrState) (now : ℚ)
    (_signalByAgent : List (String × ℚ)) (rewardOk winnersOk : Bool) : TryOut :=
  if cfg.submitFrequency < (now - st.timeSinceSubmit) / 3600 then
    if rewardOk then
      if winnersOk then
        ⟨{ st with batchedSignals := 0, timeSinceSubmit := now, submittedThisRound := true },
         true, true⟩
      else ⟨{ st with batchedSignals := 0 }, true, true⟩
    else ⟨st, true, false⟩
  else ⟨st, false, false⟩

/-! ### ReasoningGymDataManager (src/rgym_exp/src/data.py)

The swarm state is an untrusted nested mapping; the Python code guards each
level with isinstance checks, so each level is modelled as a sum of the
checked shape and an opaque "wrong-shaped" alternative.  Payload, the game
tree factory and generate_md5_hash_id come from the external genrl package:
Payload is modelled as a record of the fields data.py reads (it always has an
actions attribute, possibly None or of a non-list type), the hash as an
abstract function String -> Int in the configuration, and a created game tree
as the record of exactly what prepare_states feeds it (the root world state,
the stage and actions passed to append_node_actions, and the metadata stored
on the root node). -/

structure WorldState where
  question : String
  answer : String
deriving DecidableEq

inductive PyAction
  | str : String → PyAction
  | nonstr : PyAction
deriving DecidableEq

inductive ActionsData
  | list : List PyAction → ActionsData
  | notList : ActionsData
deriving DecidableEq

structure TPayload where
  world_state : WorldState
  actions : Option ActionsData
  metadata : Int
deriving DecidableEq

inductive SwarmItem
  | payload : TPayload → SwarmItem
  | notPayload : SwarmItem
deriving DecidableEq

inductive BatchVal
  | list : List SwarmItem → BatchVal
  | notList : BatchVal
deriving DecidableEq

inductive BKey
  | int : Int → BKey
  | notInt : BKey
deriving DecidableEq

inductive AgentVal
  | dict : List (BKey × BatchVal) → AgentVal
  | notDict : AgentVal
deriving DecidableEq

inductive AKey
  | str : String → AKey
  | notStr : AKey
deriving DecidableEq

abbrev SwarmStates := List (AKey × AgentVal)

/-- A game tree created by prepare_states: game_tree_factory(received_states)
followed by append_node_actions(stage, node_idx=0, actions) and storing the
metadata on tree[stage][0]. -/
structure GTree where
  root : WorldState
  stage : Nat
  actions : Option ActionsData
  metadata : Int
deriving DecidableEq

/-- current_state.trees: agent -> batch_id -> tree or None. -/
abbrev Trees := List (String × List (Int × Option GTree))

abbrev TransMap := List ((String × Int) × TPayload)

/-- Configuration of ReasoningGymDataManager (data.py lines 71-73):
num_transplant_trees (asserted non-negative, default 1) and num_generations
(default None), plus the external content hash generate_md5_hash_id. -/
structure DMConfig where
  numGenerations : Option Int
  numTransplantTrees : Nat
  hashId : String → Int

/-- Python truthiness of self.num_generations: None and 0 are falsy. -/
def numGenTruthy (cfg : DMConfig) : Bool :=
  match cfg.numGenerations with
  | none => false
  | some n => n != 0

/-- The payload checks of data.py lines 307-313: payload.actions is not None,
is a list, has length equal to num_generations, and all its entries are
strings (hasattr(payload, "actions") always holds for a Payload). -/
def actionsOk (cfg : DMConfig) (p : TPayload) : Bool :=
  match p.actions with
  | some (ActionsData.list acts) =>
    (match cfg.numGenerations with
     | some n => ((acts.length : Int) == n)
     | none => false)
    && acts.all (fun a => match a with | PyAction.str _ => true | PyAction.nonstr => false)
  | _ => false

/-- Innermost loop of transplant_trees (data.py 305-317): scan the payload
list of one (agent, batch) slot; an accepted payload is written into the
transplants dict and the function returns as soon as the dict size reaches
num_transplants.  The Bool result signals that early return. -/
def scanItems (cfg : DMConfig) (cap : Nat) (agent : String) (bid : Int) :
    List SwarmItem → TransMap → TransMap × Bool
  | [], acc => (acc, false)
  | item :: rest, acc =>
    match item with
    | SwarmItem.payload p =>
      if numGenTruthy cfg && actionsOk cfg p then
        let acc' := aupdate acc (agent, bid) p
        if cap ≤ acc'.length then (acc', true)
        else scanItems cfg cap agent bid rest acc'
      else scanItems cfg cap agent bid rest acc
    | SwarmItem.notPayload => scanItems cfg cap agent bid rest acc

/-- Middle loop (data.py 302-304): skip batch keys that are not ints and
values that are not lists. -/
def scanBatches (cfg : DMConfig) (cap : Nat) (agent : String) :
    List (BKey × BatchVal) → TransMap → TransMap × Bool
  | [], acc => (acc, false)
  | (bk, bv) :: rest, acc =>
    match bk, bv with
    | BKey.int bid, BatchVal.list items =>
      match scanItems cfg cap agent bid items acc with
      | (acc', true) => (acc', true)
      | (acc', false) => scanBatches cfg cap agent rest acc'
    | _, _ => scanBatches cfg cap agent rest acc

/-- Outer loop (data.py 296-301): skip non-string agent keys, agents that
already have a local tree entry, and agent values that are not dicts. -/
def scanAgents (cfg : DMConfig) (cap : Nat) (trees : Trees) :
    SwarmStates → TransMap → TransMap × Bool
  | [], acc => (acc, false)
  | (AKey.notStr, _) :: rest, acc => scanAgents cfg cap trees rest acc
  | (AKey.str agent, av) :: rest, acc =>
    if (alookup trees agent).isSome then scanAgents cfg cap trees rest acc
    else
      match av with
      | AgentVal.dict batches =>
        match scanBatches cfg cap agent batches acc with
        | (acc', true) => (acc', true)
        | (acc', false) => scanAgents cfg cap trees rest acc'
      | AgentVal.notDict => scanAgents cfg cap trees rest acc

/-- transplant_trees (data.py 288-319). -/
def transplant_trees (cfg : DMConfig) (trees : Trees) (swarm : SwarmStates)
    (numTransplants : Nat) : TransMap :=
  (scanAgents cfg numTransplants trees swarm []).1

/-- The AssertionError raised by the batch-id integrity assert
(data.py line 270): recomputed id, reported batch key. -/
inductive MergeError
  | assertMismatch : String → Int → Int → MergeError
deriving DecidableEq

def lookup2 (t : Trees) (a : String) (b : Int) : Option (Option GTree) :=
  match alookup t a with
  | none => none
  | some m => alookup m b

def setTree (t : Trees) (a : String) (b : Int) (v : Option GTree) : Trees :=
  aupdate t a (aupdate ((alookup t a).getD []) b v)

/-- data.py lines 258-259: if agent not in trees: trees[agent] = {}. -/
def ensureAgent (t : Trees) (agent : String) : Trees :=
  if (alookup t agent).isSome then t else t ++ [(agent, [])]

/-- data.py lines 260-261: if batch_id not in trees[agent]: trees[agent][batch_id] = None. -/
def ensureBatch (t : Trees) (agent : String) (bid : Int) : Trees :=
  if (alookup ((alookup t agent).getD []) bid).isSome then t
  else aupdate t agent (((alookup t agent).getD []) ++ [(bid, none)])

/-- Body of the transplant loop of prepare_states (data.py 256-284) for one
(agent, batch_id, payload): ensure the agent dict and the batch key exist
(default None), recompute the content hash of the payload question and assert
it equals the batch key, then splice a new tree only if the slot is None.
The returned Trees reflect the in-place mutations made before an
AssertionError escapes. -/
def spliceOne (cfg : DMConfig) (stage : Nat) (t : Trees) (agent : String) (bid : Int)
    (p : TPayload) : Trees × Option MergeError :=
  let t2 := ensureBatch (ensureAgent t agent) agent bid
  let pbid := cfg.hashId p.world_state.question
  if pbid ≠ bid then (t2, some (MergeError.assertMismatch agent bid pbid))
  else
    match lookup2 t2 agent bid with
    | some none =>
      (setTree t2 agent bid (some ⟨p.world_state, stage, p.actions, p.metadata⟩), none)
    | _ => (t2, none)

/-- The transplant loop of prepare_states over the insertion-ordered
transplants dict; an AssertionError aborts the loop, and the trees mutated so
far persist (they are mutated in place on current_state). -/
def mergeAll (cfg : DMConfig) (stage : Nat) : Trees → TransMap → Trees × Option MergeError
  | t, [] => (t, none)
  | t, (pair, p) :: rest =>
    match spliceOne cfg stage t pair.1 pair.2 p with
    | (t', some err) => (t', some err)
    | (t', none) => mergeAll cfg stage t' rest

/-- prepare_states (data.py 248-286), restricted to its effect on
current_state.trees (its return value, current_state.get_latest_state(), is
computed by the external GameState and carries no tree information). -/
def prepare_states (cfg : DMConfig) (stage : Nat) (t : Trees) (swarm : SwarmStates) :
    Trees × Option MergeError :=
  if 0 < cfg.numTransplantTrees then
    mergeAll cfg stage t (transplant_trees cfg t swarm cfg.numTransplantTrees)
  else (t, none)

/-! ### agent_block (manager.py 302-342), the round-synchronization loop

One loop iteration is driven by the outcome of coordinator.get_round_and_stage:
none models a raised exception (sleep check_interval and continue), some r a
fetched round.  The absolute train_timeout only bounds the number of
iterations, so a run is modelled over a finite list of fetch outcomes. -/

structure BlockState where
  localRound : Int
  backoff : ℚ
deriving DecidableEq

structure BlockStepOut where
  st : BlockState
  slept : Option ℚ
  returned : Bool
deriving DecidableEq

/-- One iteration of the while loop: on a fetch failure sleep check_interval
with the backoff untouched; on round_num >= state.round reset the backoff,
adopt the round and return; otherwise sleep the current backoff, double it
capped at max_check_interval, and return only in the terminal-round case. -/
def agentBlockStep (checkInterval maxCheckInterval : ℚ) (maxRound : Int)
    (st : BlockState) (fetch : Option Int) : BlockStepOut :=
  match fetch with
  | none => ⟨st, some checkInterval, false⟩
  | some r =>
    if st.localRound ≤ r then ⟨⟨r, checkInterval⟩, none, true⟩
    else
      let st' : BlockState := ⟨st.localRound, pyMin (st.backoff * 2) maxCheckInterval⟩
      if r = maxRound - 1 then ⟨st', some st.backoff, true⟩
      else ⟨st', some st.backoff, false⟩

/-- The sleep durations performed over a run of the loop. -/
def agentBlockSleeps (checkInterval maxCheckInterval : ℚ) (maxRound : Int) :
    BlockState → List (Option Int) → List ℚ
  | _, [] => []
  | st, f :: fs =>
    let o := agentBlockStep checkInterval maxCheckInterval maxRound st f
    (match o.slept with | some d => [d] | none => []) ++
      (if o.returned then []
       else agentBlockSleeps checkInterval maxCheckInterval maxRound o.st fs)

/-! ## Theorems -/

/-! ### Generic lemmas about the association-list and pyMin helpers -/

theorem aupdate_length_le {α β : Type} [DecidableEq α] (m : List (α × β)) (a : α) (v : β) :
    (aupdate m a v).length ≤ m.length + 1 := by
  induction m with
  | nil => simp [aupdate]
  | cons kw rest ih =>
    obtain ⟨k, w⟩ := kw
    by_cases h : a = k
    · simp [aupdate, h]
    · simp only [aupdate, if_neg h, List.length_cons]
      omega

theorem aupdate_mem {α β : Type} [DecidableEq α] (m : List (α × β)) (a : α) (v : β) :
    ∀ kp ∈ aupdate m a v, kp ∈ m ∨ kp = (a, v) := by
  induction m with
  | nil => simp [aupdate]
  | cons kw rest ih =>
    obtain ⟨k, w⟩ := kw
    intro kp hkp
    by_cases h : a = k
    · simp only [aupdate, if_pos h] at hkp
      rw [List.mem_cons] at hkp
      rcases hkp with h1 | h1
      · right; rw [h1, h]
      · left; exact List.mem_cons_of_mem _ h1
    · simp only [aupdate, if_neg h] at hkp
      rw [List.mem_cons] at hkp
      rcases hkp with h1 | h1
      · left; rw [h1]; exact List.mem_cons_self _ _
      · rcases ih kp h1 with h2 | h2
        · left; exact List.mem_cons_of_mem _ h2
        · right; exact h2

theorem alookup_mem {α β : Type} [DecidableEq α] (m : List (α × β)) (a : α) (v : β)
    (h : alookup m a = some v) : (a, v) ∈ m := by
  induction m with
  | nil => simp [alookup] at h
  | cons kw rest ih =>
    obtain ⟨k, w⟩ := kw
    by_cases hk : a = k
    · simp only [alookup, if_pos hk] at h
      subst hk
      cases h
      exact List.mem_cons_self _ _
    · simp only [alookup, if_neg hk] at h
      exact List.mem_cons_of_mem _ (ih h)

theorem pyMin_eq_min (x y : ℚ) : pyMin x y = min x y := by
  unfold pyMin
  rcases lt_or_le y x with h | h
  · rw [if_pos h, min_eq_right h.le]
  · rw [if_neg (not_lt.mpr h), min_eq_left h]

theorem pyMax_eq_max (x y : ℚ) : pyMax x y = max x y := by
  unfold pyMax
  rcases lt_or_le x y with h | h
  · rw [if_pos h, max_eq_right h.le]
  · rw [if_neg (not_lt.mpr h), max_eq_left h]

/-! ### C9: the round-sync backoff sequence -/

theorem pyMin_double_cap (k : ℕ) :
    pyMin (pyMin ((5:ℚ) * 2 ^ k) 300 * 2) 300 = pyMin ((5:ℚ) * 2 ^ (k + 1)) 300 := by
  rw [pyMin_eq_min, pyMin_eq_min, pyMin_eq_min]
  rcases le_or_lt ((5:ℚ) * 2 ^ k) 300 with h | h
  · rw [min_eq_left h, pow_succ]
    ring_nf
  · have h2 : (300:ℚ) < 5 * 2 ^ (k + 1) := by
      have hk : (5:ℚ) * 2 ^ k < 5 * 2 ^ (k + 1) := by
        have : (0:ℚ) < 2 ^ k := by positivity
        rw [pow_succ]
        nlinarith
      linarith
    rw [min_eq_right h.le, min_eq_right (by norm_num : (300:ℚ) ≤ 300 * 2),
      min_eq_right h2.le]

theorem agentBlockSleeps_behind (r localR maxR : Int) (hb : r < localR) (ht : r ≠ maxR - 1) :
    ∀ (m k : ℕ),
      agentBlockSleeps 5 300 maxR ⟨localR, pyMin ((5:ℚ) * 2 ^ k) 300⟩
        (List.replicate m (some r)) =
      (List.range m).map (fun j => pyMin ((5:ℚ) * 2 ^ (k + j)) 300) := by
  intro m
  induction m with
  | zero => intro k; simp [agentBlockSleeps]
  | succ m ih =>
    intro k
    rw [List.replicate_succ]
    show (agentBlockSleeps 5 300 maxR _ (some r :: List.replicate m (some r))) = _
    unfold agentBlockSleeps
    rw [List.range_succ_eq_map, List.map_cons]
    simp only [agentBlockStep, if_neg (not_le.mpr hb), if_neg ht]
    rw [pyMin_double_cap k]
    rw [ih (k + 1)]
    simp only [Bool.false_eq_true, if_false, List.singleton_append, Nat.add_zero,
      List.cons.injEq]
    refine ⟨trivial, ?_⟩
    rw [List.map_map]
    apply List.map_congr_left
    intro j _
    simp only [Function.comp_apply, Nat.succ_eq_add_one]
    rw [Nat.add_assoc, Nat.add_comm 1 j]

/-- C9: in the round-synchronization loop, while the fetched remote round
stays (non-terminally) behind the local round, the successive sleep durations
follow the doubling sequence capped at 300 starting from check_interval = 5
(so 5, 10, 20, 40, 80, 160, 300, 300, ...), and any successful catch-up
resets the backoff to its initial value while adopting the remote round. -/
theorem round_sync_backoff :
    (∀ (m : ℕ) (r localR maxR : Int), r < localR → r ≠ maxR - 1 →
      agentBlockSleeps 5 300 maxR ⟨localR, 5⟩ (List.replicate m (some r)) =
        (List.range m).map (fun j => pyMin ((5:ℚ) * 2 ^ j) 300))
    ∧ (∀ (ci mci : ℚ) (maxR : Int) (st : BlockState) (r : Int), st.localRound ≤ r →
        (agentBlockStep ci mci maxR st (some r)).st.backoff = ci
        ∧ (agentBlockStep ci mci maxR st (some r)).st.localRound = r
        ∧ (agentBlockStep ci mci maxR st (some r)).returned = true) := by
  constructor
  · intro m r localR maxR hb ht
    have h0 : pyMin ((5:ℚ) * 2 ^ (0:ℕ)) 300 = 5 := by norm_num [pyMin]
    have := agentBlockSleeps_behind r localR maxR hb ht m 0
    rw [h0] at this
    rw [this]
    apply List.map_congr_left
    intro j _
    rw [Nat.zero_add]
  · intro ci mci maxR st r hle
    simp [agentBlockStep, if_pos hle]

/-- Witness for C9 at a concrete run: remote round 0, local round 1,
max_round 10, eight behind-iterations produce exactly the spec's sequence
5, 10, 20, 40, 80, 160, 300, 300. -/
theorem round_sync_backoff_witness :
    ((0:Int) < 1 ∧ (0:Int) ≠ 10 - 1) ∧
    agentBlockSleeps 5 300 10 ⟨1, 5⟩ (List.replicate 8 (some 0)) =
      [5, 10, 20, 40, 80, 160, 300, 300] := by
  refine ⟨⟨by norm_num, by norm_num⟩, ?_⟩
  rw [round_sync_backoff.1 8 0 1 10 (by norm_num) (by norm_num)]
  norm_num [pyMin, List.range_succ]

/-! ### C8: winner selection -/

theorem maxFold_first_max (xs : List (String × ℚ)) :
    ∀ (x : String × ℚ),
      ∃ l₁ l₂, x :: xs = l₁ ++ (maxFold x xs) :: l₂ ∧
        (∀ q ∈ l₁, q.2 < (maxFold x xs).2) ∧ (∀ q ∈ l₂, q.2 ≤ (maxFold x xs).2) := by
  induction xs with
  | nil =>
    intro x
    exact ⟨[], [], rfl, by simp, by simp⟩
  | cons y ys ih =>
    intro x
    by_cases h : x.2 < y.2
    · have hfold : maxFold x (y :: ys) = maxFold y ys := by
        simp [maxFold, if_pos h]
      obtain ⟨l₁, l₂, heq, h1, h2⟩ := ih y
      rw [hfold]
      have hxp : x.2 < (maxFold y ys).2 := by
        cases l₁ with
        | nil =>
          simp only [List.nil_append] at heq
          have : y = maxFold y ys := by
            exact (List.cons.injEq _ _ _ _).mp heq |>.1
          rw [← this]
          exact h
        | cons z l₁t =>
          have hz : y = z := (List.cons.injEq _ _ _ _).mp heq |>.1
          have : y ∈ z :: l₁t := by rw [hz]; exact List.mem_cons_self _ _
          exact lt_trans h (h1 y this)
      refine ⟨x :: l₁, l₂, ?_, ?_, h2⟩
      · rw [List.cons_append, ← heq]
      · intro q hq
        rcases List.mem_cons.mp hq with h3 | h3
        · rw [h3]; exact hxp
        · exact h1 q h3
    · have hfold : maxFold x (y :: ys) = maxFold x ys := by
        simp [maxFold, if_neg h]
      obtain ⟨l₁, l₂, heq, h1, h2⟩ := ih x
      rw [hfold]
      cases l₁ with
      | nil =>
        simp only [List.nil_append] at heq
        have hx : x = maxFold x ys := (List.cons.injEq _ _ _ _).mp heq |>.1
        have hys : ys = l₂ := (List.cons.injEq _ _ _ _).mp heq |>.2
        refine ⟨[], y :: ys, by rw [List.nil_append, ← hx], by simp, ?_⟩
        intro q hq
        rcases List.mem_cons.mp hq with h3 | h3
        · rw [h3, ← hx]
          exact not_lt.mp h
        · rw [hys] at h3
          exact h2 q h3
      | cons z l₁t =>
        have hx : x = z := (List.cons.injEq _ _ _ _).mp heq |>.1
        have hys : ys = l₁t ++ maxFold x ys :: l₂ := (List.cons.injEq _ _ _ _).mp heq |>.2
        have hxlt : x.2 < (maxFold x ys).2 := by
          apply h1
          rw [← hx]
          exact List.mem_cons_self _ _
        refine ⟨x :: y :: l₁t, l₂, ?_, ?_, h2⟩
        · rw [List.cons_append, List.cons_append, ← hys]
        · intro q hq
          rcases List.mem_cons.mp hq with h3 | h3
          · rw [h3]; exact hxlt
          · rcases List.mem_cons.mp h3 with h4 | h4
            · rw [h4]
              exact lt_of_le_of_lt (not_lt.mp h) hxlt
            · exact h1 q (List.mem_cons_of_mem _ h4)

/-- C8: winner selection is the argmax over the per-agent totals with ties
broken by first-seen insertion order (every earlier entry is strictly
smaller, every later entry is no greater); on the mapping A:5, B:5, C:3 in
insertion order A, B, C the winner is A; and every winners RPC issued by
_submit_current_rewards carries exactly one peer id. -/
theorem winner_first_seen_argmax :
    (∀ (l : List (String × ℚ)) (p : String × ℚ), maxByValue l = some p →
      ∃ l₁ l₂, l = l₁ ++ p :: l₂ ∧ (∀ q ∈ l₁, q.2 < p.2) ∧ (∀ q ∈ l₂, q.2 ≤ p.2))
    ∧ maxByValue [("A", (5:ℚ)), ("B", 5), ("C", 3)] = some ("A", 5)
    ∧ (∀ (st : MgrState) (my : Int) (m : List (String × ℚ)) (rOk wOk : List Bool),
        ∀ w ∈ (submitCurrentRewards st my m rOk wOk).submittedWinnersLists, w.length = 1) := by
  refine ⟨?_, ?_, ?_⟩
  · intro l p hp
    cases l with
    | nil => simp [maxByValue] at hp
    | cons x xs =>
      simp only [maxByValue, Option.some.injEq] at hp
      rw [← hp]
      exact maxFold_first_max xs x
  · norm_num [maxByValue, maxFold]
  · intro st my m rOk wOk w hw
    unfold submitCurrentRewards at hw
    rcases hm : maxByValue m with _ | ⟨a, v⟩
    · rw [hm] at hw
      simp at hw
    · rw [hm] at hw
      rcases hr : attemptsOf rOk with ⟨ra, rb⟩
      rw [hr] at hw
      cases rb
      · simp at hw
      · rcases hk : attemptsOf wOk with ⟨wa, wb⟩
        rw [hk] at hw
        cases wb
        · simp only at hw
          rw [List.eq_of_mem_replicate hw]
          rfl
        · simp only at hw
          rw [List.eq_of_mem_replicate hw]
          rfl

/-- Witness for C8: the concrete mapping A:5, B:5, C:3 selects A, and the
first-seen-argmax split holds at that instance. -/
theorem winner_first_seen_argmax_witness :
    maxByValue [("A", (5:ℚ)), ("B", 5), ("C", 3)] = some ("A", 5) ∧
    ∃ l₁ l₂, [("A", (5:ℚ)), ("B", 5), ("C", 3)] = l₁ ++ ("A", 5) :: l₂ ∧
      (∀ q ∈ l₁, q.2 < ((("A", (5:ℚ))).2)) ∧ (∀ q ∈ l₂, q.2 ≤ ((("A", (5:ℚ))).2)) := by
  exact ⟨winner_first_seen_argmax.2.1,
    winner_first_seen_argmax.1 _ _ winner_first_seen_argmax.2.1⟩

/-! ### Characterization lemmas for the submission hook -/

@[simp] theorem stAfterAgg_timeSinceSubmit (st : MgrState) (tot : ℚ) :
    (stAfterAgg st tot).timeSinceSubmit = st.timeSinceSubmit := rfl

@[simp] theorem stAfterAgg_pendingRewards (st : MgrState) (tot : ℚ) :
    (stAfterAgg st tot).pendingRewards =
      st.pendingRewards ++ [perRoundInt st.simZeroCache tot] := rfl

@[simp] theorem stAfterAgg_simZeroCache (st : MgrState) (tot : ℚ) :
    (stAfterAgg st tot).simZeroCache = aggregateCache st.round st.simZeroCache tot := rfl

@[simp] theorem stAfterAgg_cachedZeroRewardRounds (st : MgrState) (tot : ℚ) :
    (stAfterAgg st tot).cachedZeroRewardRounds = st.cachedZeroRewardRounds := rfl

theorem submitCurrentRewards_st_cases (st : MgrState) (my : Int) (m : List (String × ℚ))
    (rOk wOk : List Bool) :
    ((submitCurrentRewards st my m rOk wOk).st = st
      ∧ (submitCurrentRewards st my m rOk wOk).success = false)
    ∨ ((submitCurrentRewards st my m rOk wOk).st =
        { st with cachedZeroRewardRounds := st.simZeroCache, submittedThisRound := true }
       ∧ (submitCurrentRewards st my m rOk wOk).success = true
       ∧ (submitCurrentRewards st my m rOk wOk).rewardAmount =
           my + (st.cachedZeroRewardRounds.length : Int)) := by
  unfold submitCurrentRewards
  rcases hm : maxByValue m with _ | ⟨a, v⟩
  · left
    exact ⟨rfl, rfl⟩
  · rcases hr : attemptsOf rOk with ⟨ra, rb⟩
    cases rb
    · left
      exact ⟨rfl, rfl⟩
    · rcases hk : attemptsOf wOk with ⟨wa, wb⟩
      cases wb
      · left
        exact ⟨rfl, rfl⟩
      · right
        exact ⟨rfl, rfl, rfl⟩

theorem submitCurrentRewards_preserves (st : MgrState) (my : Int) (m : List (String × ℚ))
    (rOk wOk : List Bool) :
    (submitCurrentRewards st my m rOk wOk).st.simZeroCache = st.simZeroCache
    ∧ (submitCurrentRewards st my m rOk wOk).st.timeSinceSubmit = st.timeSinceSubmit
    ∧ (submitCurrentRewards st my m rOk wOk).st.pendingRewards = st.pendingRewards := by
  rcases submitCurrentRewards_st_cases st my m rOk wOk with ⟨h, _⟩ | ⟨h, _, _⟩ <;>
    rw [h] <;> exact ⟨rfl, rfl, rfl⟩

theorem hook_stage_bad (cfg : MgrConfig) (st : MgrState) (inp : HookInput)
    (h1 : ¬ st.stage ≤ inp.ledger.length) :
    hookAfterRewardsUpdated cfg st inp = ⟨st, none, false, none⟩ := by
  unfold hookAfterRewardsUpdated
  rw [if_neg h1]

theorem isEmpty_false_of_ne_nil {α : Type} {l : List α} (h : l ≠ []) :
    l.isEmpty = false := by
  cases l with
  | nil => exact absurd rfl h
  | cons a t => rfl

theorem hook_no_rewards (cfg : MgrConfig) (st : MgrState) (inp : HookInput)
    (h1 : st.stage ≤ inp.ledger.length)
    (hm : totalRewardsByAgent st.stage inp.ledger = []) :
    hookAfterRewardsUpdated cfg st inp = ⟨st, none, false, none⟩ := by
  unfold hookAfterRewardsUpdated
  rw [if_pos h1]
  simp only [hm, List.isEmpty_nil, if_true]

theorem hook_gate_closed (cfg : MgrConfig) (st : MgrState) (inp : HookInput)
    (h1 : st.stage ≤ inp.ledger.length)
    (hm : totalRewardsByAgent st.stage inp.ledger ≠ [])
    (hlt : (inp.now - st.timeSinceSubmit) / 3600 < cfg.submitFrequency) :
    hookAfterRewardsUpdated cfg st inp =
      ⟨stAfterAgg st (alookupD (totalRewardsByAgent st.stage inp.ledger) cfg.peerId 0),
       some (perRoundInt st.simZeroCache
         (alookupD (totalRewardsByAgent st.stage inp.ledger) cfg.peerId 0)),
       false, none⟩ := by
  unfold hookAfterRewardsUpdated
  rw [if_pos h1]
  simp only [isEmpty_false_of_ne_nil hm, Bool.false_eq_true, if_false]
  unfold hookFlush
  rw [stAfterAgg_timeSinceSubmit, if_pos hlt]

theorem hook_gate_open (cfg : MgrConfig) (st : MgrState) (inp : HookInput)
    (h1 : st.stage ≤ inp.ledger.length)
    (hm : totalRewardsByAgent st.stage inp.ledger ≠ [])
    (hge : ¬ (inp.now - st.timeSinceSubmit) / 3600 < cfg.submitFrequency) :
    hookAfterRewardsUpdated cfg st inp =
      hookFlushGo (stAfterAgg st (alookupD (totalRewardsByAgent st.stage inp.ledger) cfg.peerId 0))
        inp.now (totalRewardsByAgent st.stage inp.ledger) inp.rewardOk inp.winnersOk
        (perRoundInt st.simZeroCache
          (alookupD (totalRewardsByAgent st.stage inp.ledger) cfg.peerId 0)) := by
  unfold hookAfterRewardsUpdated
  rw [if_pos h1]
  simp only [isEmpty_false_of_ne_nil hm, Bool.false_eq_true, if_false]
  unfold hookFlush
  rw [stAfterAgg_timeSinceSubmit, if_neg hge]
  have hpe : (stAfterAgg st (alookupD (totalRewardsByAgent st.stage inp.ledger) cfg.peerId 0)).pendingRewards.isEmpty = false := by
    rw [stAfterAgg_pendingRewards]
    cases st.pendingRewards <;> rfl
  simp only [hpe, Bool.false_eq_true, if_false]

theorem hookFlushGo_spec (st1 : MgrState) (now : ℚ) (m : List (String × ℚ))
    (rOk wOk : List Bool) (q : Int) :
    (hookFlushGo st1 now m rOk wOk q).flushed = true ∧
    (hookFlushGo st1 now m rOk wOk q).queued = some q ∧
    (hookFlushGo st1 now m rOk wOk q).submit =
      some (submitCurrentRewards { st1 with cachedZeroRewardRounds := [] }
        st1.pendingRewards.sum m rOk wOk) ∧
    ((submitCurrentRewards { st1 with cachedZeroRewardRounds := [] }
        st1.pendingRewards.sum m rOk wOk).success = true →
      (hookFlushGo st1 now m rOk wOk q).st =
        { (submitCurrentRewards { st1 with cachedZeroRewardRounds := [] }
            st1.pendingRewards.sum m rOk wOk).st with
          timeSinceSubmit := now, pendingRewards := [], batchedSignals := 0 }) ∧
    ((submitCurrentRewards { st1 with cachedZeroRewardRounds := [] }
        st1.pendingRewards.sum m rOk wOk).success = false →
      (hookFlushGo st1 now m rOk wOk q).st =
        { (submitCurrentRewards { st1 with cachedZeroRewardRounds := [] }
            st1.pendingRewards.sum m rOk wOk).st with
          cachedZeroRewardRounds :=
            (submitCurrentRewards { st1 with cachedZeroRewardRounds := [] }
              st1.pendingRewards.sum m rOk wOk).st.simZeroCache }) := by
  simp only [hookFlushGo]
  cases hs : (submitCurrentRewards { st1 with cachedZeroRewardRounds := [] }
      st1.pendingRewards.sum m rOk wOk).success with
  | false =>
    refine ⟨rfl, rfl, rfl, fun ht => ?_, fun _ => rfl⟩
    cases ht
  | true =>
    refine ⟨rfl, rfl, rfl, fun _ => rfl, fun hf => ?_⟩
    cases hf

theorem hook_queued_val (cfg : MgrConfig) (st : MgrState) (inp : HookInput)
    (h1 : st.stage ≤ inp.ledger.length)
    (hm : totalRewardsByAgent st.stage inp.ledger ≠ []) :
    (hookAfterRewardsUpdated cfg st inp).queued =
      some (perRoundInt st.simZeroCache
        (alookupD (totalRewardsByAgent st.stage inp.ledger) cfg.peerId 0)) := by
  by_cases hlt : (inp.now - st.timeSinceSubmit) / 3600 < cfg.submitFrequency
  · rw [hook_gate_closed cfg st inp h1 hm hlt]
  · rw [hook_gate_open cfg st inp h1 hm hlt]
    exact (hookFlushGo_spec _ _ _ _ _ _).2.1

theorem hook_queued_some (cfg : MgrConfig) (st : MgrState) (inp : HookInput) (v : Int)
    (hq : (hookAfterRewardsUpdated cfg st inp).queued = some v) :
    st.stage ≤ inp.ledger.length ∧ totalRewardsByAgent st.stage inp.ledger ≠ [] ∧
    v = perRoundInt st.simZeroCache
      (alookupD (totalRewardsByAgent st.stage inp.ledger) cfg.peerId 0) := by
  by_cases h1 : st.stage ≤ inp.ledger.length
  · by_cases hm : totalRewardsByAgent st.stage inp.ledger = []
    · rw [hook_no_rewards cfg st inp h1 hm] at hq
      cases hq
    · refine ⟨h1, hm, ?_⟩
      rw [hook_queued_val cfg st inp h1 hm] at hq
      exact (Option.some_inj.mp hq).symm
  · rw [hook_stage_bad cfg st inp h1] at hq
    cases hq

theorem hook_simZeroCache_agg (cfg : MgrConfig) (st : MgrState) (inp : HookInput)
    (h1 : st.stage ≤ inp.ledger.length)
    (hm : totalRewardsByAgent st.stage inp.ledger ≠ []) :
    (hookAfterRewardsUpdated cfg st inp).st.simZeroCache =
      aggregateCache st.round st.simZeroCache
        (alookupD (totalRewardsByAgent st.stage inp.ledger) cfg.peerId 0) := by
  by_cases hlt : (inp.now - st.timeSinceSubmit) / 3600 < cfg.submitFrequency
  · rw [hook_gate_closed cfg st inp h1 hm hlt]
    exact stAfterAgg_simZeroCache st _
  · rw [hook_gate_open cfg st inp h1 hm hlt]
    obtain ⟨_, _, _, hsucc, hfail⟩ := hookFlushGo_spec
      (stAfterAgg st (alookupD (totalRewardsByAgent st.stage inp.ledger) cfg.peerId 0))
      inp.now (totalRewardsByAgent st.stage inp.ledger) inp.rewardOk inp.winnersOk
      (perRoundInt st.simZeroCache
        (alookupD (totalRewardsByAgent st.stage inp.ledger) cfg.peerId 0))
    cases hs : (submitCurrentRewards
        { stAfterAgg st (alookupD (totalRewardsByAgent st.stage inp.ledger) cfg.peerId 0) with
          cachedZeroRewardRounds := [] }
        (stAfterAgg st (alookupD (totalRewardsByAgent st.stage inp.ledger) cfg.peerId 0)).pendingRewards.sum
        (totalRewardsByAgent st.stage inp.ledger) inp.rewardOk inp.winnersOk).success with
    | false =>
      rw [hfail hs]
      exact (submitCurrentRewards_preserves _ _ _ _ _).1
    | true =>
      rw [hsucc hs]
      exact (submitCurrentRewards_preserves _ _ _ _ _).1

theorem hook_simZeroCache_cases (cfg : MgrConfig) (st : MgrState) (inp : HookInput) :
    (hookAfterRewardsUpdated cfg st inp).st.simZeroCache = st.simZeroCache ∨
    (hookAfterRewardsUpdated cfg st inp).st.simZeroCache =
      aggregateCache st.round st.simZeroCache
        (alookupD (totalRewardsByAgent st.stage inp.ledger) cfg.peerId 0) := by
  by_cases h1 : st.stage ≤ inp.ledger.length
  · by_cases hm : totalRewardsByAgent st.stage inp.ledger = []
    · left
      rw [hook_no_rewards cfg st inp h1 hm]
    · right
      exact hook_simZeroCache_agg cfg st inp h1 hm
  · left
    rw [hook_stage_bad cfg st inp h1]

theorem aggregateCache_len (round : Int) (cache : List Int) (tot : ℚ)
    (h : cache.length ≤ 3) : (aggregateCache round cache tot).length ≤ 3 := by
  unfold aggregateCache
  split_ifs with hp hmem hlen
  · norm_num
  · exact h
  · rw [List.length_drop, List.length_append]
    simp only [List.length_singleton]
    omega
  · rw [List.length_append] at hlen ⊢
    simp only [List.length_singleton] at hlen ⊢
    omega

theorem aggregateCache_evict (round : Int) (cache : List Int) (tot : ℚ)
    (hnp : ¬ 0 < tot) (hnm : round ∉ cache) (hlen : cache.length = 3) :
    aggregateCache round cache tot = cache.drop 1 ++ [round] := by
  unfold aggregateCache
  rw [if_neg hnp, if_neg hnm, if_pos (by rw [List.length_append, hlen]; norm_num)]
  cases cache with
  | nil => cases hlen
  | cons a t => rfl

theorem mem_aggregateCache (round : Int) (cache : List Int) (tot : ℚ)
    (hnp : ¬ 0 < tot) : round ∈ aggregateCache round cache tot := by
  unfold aggregateCache
  rw [if_neg hnp]
  by_cases hmem : round ∈ cache
  · rw [if_pos hmem]
    exact hmem
  · rw [if_neg hmem]
    split_ifs with hlen
    · cases cache with
      | nil => simp at hlen
      | cons a t => simp
    · simp

theorem attemptsOf_le (ok : List Bool) : (attemptsOf ok).1 ≤ 3 := by
  unfold attemptsOf
  split_ifs <;> norm_num

theorem attemptsOf_all_fail (ok : List Bool) (h0 : ok.getD 0 false = false)
    (h1 : ok.getD 1 false = false) (h2 : ok.getD 2 false = false) :
    attemptsOf ok = (3, false) := by
  unfold attemptsOf
  rw [h0, h1, h2]
  rfl

theorem submitCurrentRewards_attempts (st : MgrState) (my : Int) (m : List (String × ℚ))
    (rOk wOk : List Bool) :
    (submitCurrentRewards st my m rOk wOk).rewardAttempts ≤ 3 ∧
    (submitCurrentRewards st my m rOk wOk).winnersAttempts ≤ 3 := by
  unfold submitCurrentRewards
  rcases hm : maxByValue m with _ | ⟨a, v⟩
  · exact ⟨by norm_num, by norm_num⟩
  · rcases hr : attemptsOf rOk with ⟨ra, rb⟩
    have hra : ra ≤ 3 := by
      have := attemptsOf_le rOk
      rw [hr] at this
      exact this
    cases rb
    · exact ⟨hra, by norm_num⟩
    · rcases hk : attemptsOf wOk with ⟨wa, wb⟩
      have hwa : wa ≤ 3 := by
        have := attemptsOf_le wOk
        rw [hk] at this
        exact this
      cases wb
      · exact ⟨hra, hwa⟩
      · exact ⟨hra, hwa⟩

theorem submitCurrentRewards_reward_fail (st : MgrState) (my : Int) (m : List (String × ℚ))
    (rOk wOk : List Bool) (h0 : rOk.getD 0 false = false)
    (h1 : rOk.getD 1 false = false) (h2 : rOk.getD 2 false = false) :
    (submitCurrentRewards st my m rOk wOk).success = false ∧
    (submitCurrentRewards st my m rOk wOk).winnersAttempts = 0 := by
  unfold submitCurrentRewards
  rcases hm : maxByValue m with _ | ⟨a, v⟩
  · exact ⟨rfl, rfl⟩
  · rw [attemptsOf_all_fail rOk h0 h1 h2]
    exact ⟨rfl, rfl⟩

/-! ### C3: the submission gate and the flush timer -/

/-- C3: a coordinator flush is issued by the rewards hook only when at least
submit_frequency hours have elapsed since the timer value, and the timer
moves only on a fully successful flush, in which case it becomes the current
time; the _try_submit_to_chain fallback obeys the same bound (its gate is
even strict) and also resets the timer only when both RPCs succeed. -/
theorem submission_gate_timing :
    (∀ (cfg : MgrConfig) (st : MgrState) (inp : HookInput),
      ((hookAfterRewardsUpdated cfg st inp).flushed = true →
        cfg.submitFrequency ≤ (inp.now - st.timeSinceSubmit) / 3600)
      ∧ ((hookAfterRewardsUpdated cfg st inp).st.timeSinceSubmit ≠ st.timeSinceSubmit →
          (∃ sr, (hookAfterRewardsUpdated cfg st inp).submit = some sr ∧ sr.success = true)
          ∧ (hookAfterRewardsUpdated cfg st inp).st.timeSinceSubmit = inp.now))
    ∧ (∀ (cfg : MgrConfig) (st : MgrState) (now : ℚ) (sba : List (String × ℚ))
        (rOk wOk : Bool),
        ((trySubmitToChain cfg st now sba rOk wOk).rewardAttempted = true →
          cfg.submitFrequency ≤ (now - st.timeSinceSubmit) / 3600)
        ∧ ((trySubmitToChain cfg st now sba rOk wOk).st.timeSinceSubmit ≠ st.timeSinceSubmit →
            rOk = true ∧ wOk = true ∧
            (trySubmitToChain cfg st now sba rOk wOk).st.timeSinceSubmit = now)) := by
  constructor
  · intro cfg st inp
    by_cases h1 : st.stage ≤ inp.ledger.length
    · by_cases hm : totalRewardsByAgent st.stage inp.ledger = []
      · rw [hook_no_rewards cfg st inp h1 hm]
        exact ⟨fun hf => Bool.noConfusion hf, fun ht => absurd rfl ht⟩
      · by_cases hlt : (inp.now - st.timeSinceSubmit) / 3600 < cfg.submitFrequency
        · rw [hook_gate_closed cfg st inp h1 hm hlt]
          exact ⟨fun hf => Bool.noConfusion hf, fun ht => absurd rfl ht⟩
        · rw [hook_gate_open cfg st inp h1 hm hlt]
          have hspec := hookFlushGo_spec
            (stAfterAgg st (alookupD (totalRewardsByAgent st.stage inp.ledger) cfg.peerId 0))
            inp.now (totalRewardsByAgent st.stage inp.ledger) inp.rewardOk inp.winnersOk
            (perRoundInt st.simZeroCache
              (alookupD (totalRewardsByAgent st.stage inp.ledger) cfg.peerId 0))
          obtain ⟨_, _, hsub, hsucc, hfail⟩ := hspec
          constructor
          · intro _
            exact le_of_not_lt hlt
          · intro ht
            by_cases hs : (submitCurrentRewards
                { stAfterAgg st (alookupD (totalRewardsByAgent st.stage inp.ledger) cfg.peerId 0) with
                  cachedZeroRewardRounds := [] }
                (stAfterAgg st (alookupD (totalRewardsByAgent st.stage inp.ledger) cfg.peerId 0)).pendingRewards.sum
                (totalRewardsByAgent st.stage inp.ledger) inp.rewardOk inp.winnersOk).success = true
            · refine ⟨⟨_, hsub, hs⟩, ?_⟩
              rw [hsucc hs]
            · have hs' : (submitCurrentRewards
                  { stAfterAgg st (alookupD (totalRewardsByAgent st.stage inp.ledger) cfg.peerId 0) with
                    cachedZeroRewardRounds := [] }
                  (stAfterAgg st (alookupD (totalRewardsByAgent st.stage inp.ledger) cfg.peerId 0)).pendingRewards.sum
                  (totalRewardsByAgent st.stage inp.ledger) inp.rewardOk inp.winnersOk).success = false := by
                cases h : (submitCurrentRewards
                    { stAfterAgg st (alookupD (totalRewardsByAgent st.stage inp.ledger) cfg.peerId 0) with
                      cachedZeroRewardRounds := [] }
                    (stAfterAgg st (alookupD (totalRewardsByAgent st.stage inp.ledger) cfg.peerId 0)).pendingRewards.sum
                    (totalRewardsByAgent st.stage inp.ledger) inp.rewardOk inp.winnersOk).success
                · rfl
                · exact absurd h hs
              exfalso
              apply ht
              rw [hfail hs']
              exact (submitCurrentRewards_preserves _ _ _ _ _).2.1
    · rw [hook_stage_bad cfg st inp h1]
      exact ⟨fun hf => Bool.noConfusion hf, fun ht => absurd rfl ht⟩
  · intro cfg st now sba rOk wOk
    unfold trySubmitToChain
    by_cases hg : cfg.submitFrequency < (now - st.timeSinceSubmit) / 3600
    · rw [if_pos hg]
      cases rOk
      · exact ⟨fun _ => hg.le, fun ht => absurd rfl ht⟩
      · cases wOk
        · exact ⟨fun _ => hg.le, fun ht => absurd rfl ht⟩
        · exact ⟨fun _ => hg.le, fun _ => ⟨rfl, rfl, rfl⟩⟩
    · rw [if_neg hg]
      exact ⟨fun hf => Bool.noConfusion hf, fun ht => absurd rfl ht⟩

/-- Witness for C3: a concrete successful flush four hours after the timer
value with submit_frequency three resets the timer to the current time. -/
theorem submission_gate_timing_witness :
    (hookAfterRewardsUpdated ⟨"p", 3⟩ (initState 0 1 0)
        ⟨14400, [[("p", [(0, [[(2:ℚ)]])])]], [true], [true]⟩).st.timeSinceSubmit ≠
      (initState 0 1 0).timeSinceSubmit ∧
    (hookAfterRewardsUpdated ⟨"p", 3⟩ (initState 0 1 0)
        ⟨14400, [[("p", [(0, [[(2:ℚ)]])])]], [true], [true]⟩).st.timeSinceSubmit = 14400 := by
  have hne : (hookAfterRewardsUpdated ⟨"p", 3⟩ (initState 0 1 0)
      ⟨14400, [[("p", [(0, [[(2:ℚ)]])])]], [true], [true]⟩).st.timeSinceSubmit ≠
        (initState 0 1 0).timeSinceSubmit := by
    norm_num [hookAfterRewardsUpdated, totalRewardsByAgent, accumStage, addAgentRewards,
      sumBatch, alookupD, alookup, perRoundInt, perRoundValue, pyMax, stAfterAgg,
      aggregateCache, hookFlush, hookFlushGo, initState, submitCurrentRewards, maxByValue,
      maxFold, attemptsOf]
  exact ⟨hne, ((submission_gate_timing.1 ⟨"p", 3⟩ (initState 0 1 0)
    ⟨14400, [[("p", [(0, [[(2:ℚ)]])])]], [true], [true]⟩).2 hne).2⟩

/-! ### C4 and C5: the pending queue, the aggregated amount and the retries -/

theorem hookFlushGo_pending (st1 : MgrState) (now : ℚ) (m : List (String × ℚ))
    (rOk wOk : List Bool) (q : Int) :
    (flushSucceeded (hookFlushGo st1 now m rOk wOk q) = true →
      flushAmount (hookFlushGo st1 now m rOk wOk q) = some st1.pendingRewards.sum
      ∧ (hookFlushGo st1 now m rOk wOk q).st.pendingRewards = [])
    ∧ (flushSucceeded (hookFlushGo st1 now m rOk wOk q) = false →
      (hookFlushGo st1 now m rOk wOk q).st.pendingRewards = st1.pendingRewards) := by
  obtain ⟨_, _, hsub, hsucc, hfail⟩ := hookFlushGo_spec st1 now m rOk wOk q
  have hfs_eq : flushSucceeded (hookFlushGo st1 now m rOk wOk q) =
      (submitCurrentRewards { st1 with cachedZeroRewardRounds := [] }
        st1.pendingRewards.sum m rOk wOk).success := by
    unfold flushSucceeded
    rw [hsub]
  have hfa_eq : flushAmount (hookFlushGo st1 now m rOk wOk q) =
      some (submitCurrentRewards { st1 with cachedZeroRewardRounds := [] }
        st1.pendingRewards.sum m rOk wOk).rewardAmount := by
    unfold flushAmount
    rw [hsub]
    rfl
  constructor
  · intro hfs
    rw [hfs_eq] at hfs
    constructor
    · rw [hfa_eq]
      rcases submitCurrentRewards_st_cases { st1 with cachedZeroRewardRounds := [] }
          st1.pendingRewards.sum m rOk wOk with ⟨_, hf⟩ | ⟨_, _, hamt⟩
      · rw [hfs] at hf
        cases hf
      · rw [hamt]
        simp
    · rw [hsucc hfs]
  · intro hfs
    rw [hfs_eq] at hfs
    rw [hfail hfs]
    exact (submitCurrentRewards_preserves _ _ _ _ _).2.2

theorem hook_pending_spec (cfg : MgrConfig) (st : MgrState) (inp : HookInput) (v : Int)
    (hq : (hookAfterRewardsUpdated cfg st inp).queued = some v) :
    (flushSucceeded (hookAfterRewardsUpdated cfg st inp) = true →
      flushAmount (hookAfterRewardsUpdated cfg st inp) =
        some ((st.pendingRewards ++ [v]).sum)
      ∧ (hookAfterRewardsUpdated cfg st inp).st.pendingRewards = [])
    ∧ (flushSucceeded (hookAfterRewardsUpdated cfg st inp) = false →
      (hookAfterRewardsUpdated cfg st inp).st.pendingRewards = st.pendingRewards ++ [v]) := by
  obtain ⟨h1, hm, hv⟩ := hook_queued_some cfg st inp v hq
  by_cases hlt : (inp.now - st.timeSinceSubmit) / 3600 < cfg.submitFrequency
  · rw [hook_gate_closed cfg st inp h1 hm hlt]
    refine ⟨fun hfs => Bool.noConfusion hfs, fun _ => ?_⟩
    rw [hv]
    exact stAfterAgg_pendingRewards st _
  · rw [hook_gate_open cfg st inp h1 hm hlt]
    have hP := hookFlushGo_pending
      (stAfterAgg st (alookupD (totalRewardsByAgent st.stage inp.ledger) cfg.peerId 0))
      inp.now (totalRewardsByAgent st.stage inp.ledger) inp.rewardOk inp.winnersOk
      (perRoundInt st.simZeroCache
        (alookupD (totalRewardsByAgent st.stage inp.ledger) cfg.peerId 0))
    constructor
    · intro hfs
      obtain ⟨ha, hp⟩ := hP.1 hfs
      refine ⟨?_, hp⟩
      rw [ha, stAfterAgg_pendingRewards, hv]
    · intro hfs
      rw [hP.2 hfs, stAfterAgg_pendingRewards, hv]

/-- C4: on every fully successful flush the amount handed to submit_reward
equals the sum of all per-round values queued since the previous successful
flush (the pending queue including the value queued in this call), and the
queue is cleared exactly then; if no successful flush happens in the call the
queue keeps all queued values for retry. -/
theorem pending_queue_flush (cfg : MgrConfig) (st : MgrState) (inp : HookInput) (v : Int)
    (hq : (hookAfterRewardsUpdated cfg st inp).queued = some v) :
    (flushSucceeded (hookAfterRewardsUpdated cfg st inp) = true →
      flushAmount (hookAfterRewardsUpdated cfg st inp) =
        some ((st.pendingRewards ++ [v]).sum)
      ∧ (hookAfterRewardsUpdated cfg st inp).st.pendingRewards = [])
    ∧ (flushSucceeded (hookAfterRewardsUpdated cfg st inp) = false →
      (hookAfterRewardsUpdated cfg st inp).st.pendingRewards = st.pendingRewards ++ [v]) :=
  hook_pending_spec cfg st inp v hq

/-- Witness for C4: a concrete call whose flush succeeds submits exactly the
queued sum (a single value 3) and clears the queue. -/
theorem pending_queue_flush_witness :
    (hookAfterRewardsUpdated ⟨"p", 3⟩ (initState 0 1 0)
      ⟨14400, [[("p", [(0, [[(2:ℚ)]])])]], [true], [true]⟩).queued = some 3 ∧
    flushSucceeded (hookAfterRewardsUpdated ⟨"p", 3⟩ (initState 0 1 0)
      ⟨14400, [[("p", [(0, [[(2:ℚ)]])])]], [true], [true]⟩) = true ∧
    flushAmount (hookAfterRewardsUpdated ⟨"p", 3⟩ (initState 0 1 0)
      ⟨14400, [[("p", [(0, [[(2:ℚ)]])])]], [true], [true]⟩) = some 3 ∧
    (hookAfterRewardsUpdated ⟨"p", 3⟩ (initState 0 1 0)
      ⟨14400, [[("p", [(0, [[(2:ℚ)]])])]], [true], [true]⟩).st.pendingRewards = [] := by
  have hq : (hookAfterRewardsUpdated ⟨"p", 3⟩ (initState 0 1 0)
      ⟨14400, [[("p", [(0, [[(2:ℚ)]])])]], [true], [true]⟩).queued = some 3 := by
    norm_num [hookAfterRewardsUpdated, totalRewardsByAgent, accumStage, addAgentRewards,
      sumBatch, alookupD, alookup, perRoundInt, perRoundValue, pyMax, stAfterAgg,
      aggregateCache, hookFlush, hookFlushGo, initState, submitCurrentRewards, maxByValue,
      maxFold, attemptsOf]
  have hfs : flushSucceeded (hookAfterRewardsUpdated ⟨"p", 3⟩ (initState 0 1 0)
      ⟨14400, [[("p", [(0, [[(2:ℚ)]])])]], [true], [true]⟩) = true := by
    norm_num [hookAfterRewardsUpdated, totalRewardsByAgent, accumStage, addAgentRewards,
      sumBatch, alookupD, alookup, perRoundInt, perRoundValue, pyMax, stAfterAgg,
      aggregateCache, hookFlush, hookFlushGo, initState, submitCurrentRewards, maxByValue,
      maxFold, attemptsOf, flushSucceeded]
  obtain ⟨ha, hp⟩ := (pending_queue_flush ⟨"p", 3⟩ (initState 0 1 0)
    ⟨14400, [[("p", [(0, [[(2:ℚ)]])])]], [true], [true]⟩ 3 hq).1 hfs
  refine ⟨hq, hfs, ?_, hp⟩
  rw [ha]
  norm_num [initState]

/-- C5: each coordinator RPC of _submit_current_rewards is attempted at most
3 times per flush; if all three reward attempts fail, the whole flush aborts
with a failure and the winners RPC is never attempted; and a call of the hook
whose flush did not succeed keeps the whole pending queue (with the newly
queued value) for the next gate window. -/
theorem submit_retry_bound :
    (∀ (st : MgrState) (my : Int) (m : List (String × ℚ)) (rOk wOk : List Bool),
      (submitCurrentRewards st my m rOk wOk).rewardAttempts ≤ 3
      ∧ (submitCurrentRewards st my m rOk wOk).winnersAttempts ≤ 3
      ∧ ((rOk.getD 0 false = false ∧ rOk.getD 1 false = false ∧ rOk.getD 2 false = false) →
          (submitCurrentRewards st my m rOk wOk).success = false
          ∧ (submitCurrentRewards st my m rOk wOk).winnersAttempts = 0))
    ∧ (∀ (cfg : MgrConfig) (st : MgrState) (inp : HookInput) (v : Int),
        (hookAfterRewardsUpdated cfg st inp).queued = some v →
        flushSucceeded (hookAfterRewardsUpdated cfg st inp) = false →
        (hookAfterRewardsUpdated cfg st inp).st.pendingRewards =
          st.pendingRewards ++ [v]) := by
  constructor
  · intro st my m rOk wOk
    refine ⟨(submitCurrentRewards_attempts st my m rOk wOk).1,
      (submitCurrentRewards_attempts st my m rOk wOk).2, ?_⟩
    rintro ⟨h0, h1, h2⟩
    exact submitCurrentRewards_reward_fail st my m rOk wOk h0 h1 h2
  · intro cfg st inp v hq hfs
    exact (hook_pending_spec cfg st inp v hq).2 hfs

/-- Witness for C5: with all three reward attempts failing, the flush fails,
no winners RPC is attempted, and the pending queue is preserved. -/
theorem submit_retry_bound_witness :
    (([false, false, false] : List Bool).getD 0 false = false ∧
     ([false, false, false] : List Bool).getD 1 false = false ∧
     ([false, false, false] : List Bool).getD 2 false = false) ∧
    (submitCurrentRewards (initState 0 1 0) 3 [("p", (2:ℚ))] [false, false, false] []).success = false ∧
    (submitCurrentRewards (initState 0 1 0) 3 [("p", (2:ℚ))] [false, false, false] []).winnersAttempts = 0 ∧
    (hookAfterRewardsUpdated ⟨"p", 3⟩ (initState 0 1 0)
      ⟨14400, [[("p", [(0, [[(2:ℚ)]])])]], [false, false, false], []⟩).st.pendingRewards =
      (initState 0 1 0).pendingRewards ++ [3] := by
  have hq : (hookAfterRewardsUpdated ⟨"p", 3⟩ (initState 0 1 0)
      ⟨14400, [[("p", [(0, [[(2:ℚ)]])])]], [false, false, false], []⟩).queued = some 3 := by
    norm_num [hookAfterRewardsUpdated, totalRewardsByAgent, accumStage, addAgentRewards,
      sumBatch, alookupD, alookup, perRoundInt, perRoundValue, pyMax, stAfterAgg,
      aggregateCache, hookFlush, hookFlushGo, initState, submitCurrentRewards, maxByValue,
      maxFold, attemptsOf]
  have hfs : flushSucceeded (hookAfterRewardsUpdated ⟨"p", 3⟩ (initState 0 1 0)
      ⟨14400, [[("p", [(0, [[(2:ℚ)]])])]], [false, false, false], []⟩) = false := by
    norm_num [hookAfterRewardsUpdated, totalRewardsByAgent, accumStage, addAgentRewards,
      sumBatch, alookupD, alookup, perRoundInt, perRoundValue, pyMax, stAfterAgg,
      aggregateCache, hookFlush, hookFlushGo, initState, submitCurrentRewards, maxByValue,
      maxFold, attemptsOf, flushSucceeded]
  refine ⟨⟨rfl, rfl, rfl⟩, ?_, ?_, ?_⟩
  · exact ((submit_retry_bound.1 (initState 0 1 0) 3 [("p", (2:ℚ))]
      [false, false, false] []).2.2 ⟨rfl, rfl, rfl⟩).1
  · exact ((submit_retry_bound.1 (initState 0 1 0) 3 [("p", (2:ℚ))]
      [false, false, false] []).2.2 ⟨rfl, rfl, rfl⟩).2
  · exact submit_retry_bound.2 ⟨"p", 3⟩ (initState 0 1 0)
      ⟨14400, [[("p", [(0, [[(2:ℚ)]])])]], [false, false, false], []⟩ 3 hq hfs

/-! ### C1: the per-call aggregation rule -/

/-- C1 as literally stated is false on the code: with zero-reward cache empty
and a fractional local reward total 1/2 (rewards are float sums), the hook
queues int(max(1/2 + 1 + 0, 0)) = 1, not the claim's total + 1 + cache
length = 3/2. -/
theorem reward_aggregation_cex :
    (initState 0 1 0).simZeroCache = [] ∧
    alookupD (totalRewardsByAgent 1 [[("p", [(0, [[(1:ℚ)/2]])])]]) "p" 0 = 1/2 ∧
    (hookAfterRewardsUpdated ⟨"p", 3⟩ (initState 0 1 0)
      ⟨0, [[("p", [(0, [[(1:ℚ)/2]])])]], [], []⟩).queued = some 1 ∧
    ((1:ℚ) ≠ 1/2 + 1 + (([] : List Int).length : ℚ)) := by
  refine ⟨rfl, ?_, ?_, by norm_num⟩
  · norm_num [totalRewardsByAgent, accumStage, addAgentRewards, sumBatch, alookupD, alookup]
  · norm_num [hookAfterRewardsUpdated, totalRewardsByAgent, accumStage, addAgentRewards,
      sumBatch, alookupD, alookup, perRoundInt, perRoundValue, pyMax, stAfterAgg,
      aggregateCache, hookFlush, hookFlushGo, initState, submitCurrentRewards, maxByValue,
      maxFold, attemptsOf]

/-- C1 (amended): in a call of the rewards-updated hook that reaches the
aggregation (the ledger covers the stage and the totals are non-empty), if
the local total is
strictly positive the queued per-round value is the integer part (floor) of
total + 1 + |zero cache at entry| and the zero cache is cleared in that same
call; if the total is non-positive the queued value is the cache length
before any insertion, the current round is in the cache afterwards, and a
round already cached leaves the cache unchanged. -/
theorem reward_aggregation_rule (cfg : MgrConfig) (st : MgrState) (inp : HookInput)
    (h1 : st.stage ≤ inp.ledger.length)
    (hm : totalRewardsByAgent st.stage inp.ledger ≠ []) :
    (0 < alookupD (totalRewardsByAgent st.stage inp.ledger) cfg.peerId 0 →
      (hookAfterRewardsUpdated cfg st inp).queued =
        some ⌊alookupD (totalRewardsByAgent st.stage inp.ledger) cfg.peerId 0 + 1 +
          (st.simZeroCache.length : ℚ)⌋
      ∧ (hookAfterRewardsUpdated cfg st inp).st.simZeroCache = [])
    ∧ (alookupD (totalRewardsByAgent st.stage inp.ledger) cfg.peerId 0 ≤ 0 →
      (hookAfterRewardsUpdated cfg st inp).queued = some (st.simZeroCache.length : Int)
      ∧ st.round ∈ (hookAfterRewardsUpdated cfg st inp).st.simZeroCache
      ∧ (st.round ∈ st.simZeroCache →
          (hookAfterRewardsUpdated cfg st inp).st.simZeroCache = st.simZeroCache)) := by
  constructor
  · intro hpos
    constructor
    · rw [hook_queued_val cfg st inp h1 hm]
      congr 1
      unfold perRoundInt perRoundValue pyMax
      rw [if_pos hpos, if_neg]
      push_neg
      have hc : (0:ℚ) ≤ (st.simZeroCache.length : ℚ) := by positivity
      linarith
    · rw [hook_simZeroCache_agg cfg st inp h1 hm]
      unfold aggregateCache
      rw [if_pos hpos]
  · intro hle
    have hnp : ¬ 0 < alookupD (totalRewardsByAgent st.stage inp.ledger) cfg.peerId 0 :=
      not_lt.mpr hle
    refine ⟨?_, ?_, ?_⟩
    · rw [hook_queued_val cfg st inp h1 hm]
      congr 1
      unfold perRoundInt perRoundValue pyMax
      rw [if_neg hnp, if_neg]
      · exact Int.floor_natCast _
      · push_neg
        positivity
    · rw [hook_simZeroCache_agg cfg st inp h1 hm]
      exact mem_aggregateCache _ _ _ hnp
    · intro hmem
      rw [hook_simZeroCache_agg cfg st inp h1 hm]
      unfold aggregateCache
      rw [if_neg hnp, if_pos hmem]

/-- Witness for C1 (amended): a positive total 2 with empty cache queues
floor(2 + 1 + 0) and clears the cache. -/
theorem reward_aggregation_rule_witness :
    ((initState 0 1 0).stage ≤ ([[("p", [(0, [[(2:ℚ)]])])]] : Ledger).length) ∧
    totalRewardsByAgent (initState 0 1 0).stage [[("p", [(0, [[(2:ℚ)]])])]] ≠ [] ∧
    (0 < alookupD (totalRewardsByAgent (initState 0 1 0).stage
      [[("p", [(0, [[(2:ℚ)]])])]]) "p" 0) ∧
    (hookAfterRewardsUpdated ⟨"p", 3⟩ (initState 0 1 0)
      ⟨0, [[("p", [(0, [[(2:ℚ)]])])]], [], []⟩).st.simZeroCache = [] := by
  have h1 : (initState 0 1 0).stage ≤ ([[("p", [(0, [[(2:ℚ)]])])]] : Ledger).length := by
    norm_num [initState]
  have hm : totalRewardsByAgent (initState 0 1 0).stage [[("p", [(0, [[(2:ℚ)]])])]] ≠ [] := by
    norm_num [totalRewardsByAgent, accumStage, addAgentRewards, sumBatch, initState]
  have hpos : 0 < alookupD (totalRewardsByAgent (initState 0 1 0).stage
      [[("p", [(0, [[(2:ℚ)]])])]]) "p" 0 := by
    norm_num [totalRewardsByAgent, accumStage, addAgentRewards, sumBatch, alookupD,
      alookup, initState]
  exact ⟨h1, hm, hpos, ((reward_aggregation_rule ⟨"p", 3⟩ (initState 0 1 0)
    ⟨0, [[("p", [(0, [[(2:ℚ)]])])]], [], []⟩ h1 hm).1 hpos).2⟩

/-! ### C2: the zero-reward cache bound and FIFO eviction -/

theorem hook_cache_len (cfg : MgrConfig) (st : MgrState) (inp : HookInput)
    (h : st.simZeroCache.length ≤ 3) :
    (hookAfterRewardsUpdated cfg st inp).st.simZeroCache.length ≤ 3 := by
  rcases hook_simZeroCache_cases cfg st inp with hc | hc <;> rw [hc]
  · exact h
  · exact aggregateCache_len _ _ _ h

theorem runHooks_cache_len (cfg : MgrConfig) (inps : List HookInput) :
    ∀ st : MgrState, st.simZeroCache.length ≤ 3 →
      (runHooks cfg st inps).simZeroCache.length ≤ 3 := by
  induction inps with
  | nil =>
    intro st h
    simp only [runHooks, List.foldl_nil]
    exact h
  | cons i is ih =>
    intro st h
    simp only [runHooks, List.foldl_cons]
    exact ih _ (hook_cache_len cfg st i h)

/-- C2: over every sequence of rewards-updated hook calls from the initial
state, the zero-reward cache holds at most 3 round numbers; and whenever an
insertion happens while the cache is at capacity (non-positive total, round
not yet cached, length 3), the oldest entry (the list head) is evicted. -/
theorem zero_cache_bound_fifo :
    (∀ (cfg : MgrConfig) (r : Int) (stg : Nat) (t0 : ℚ) (inps : List HookInput),
      ((runHooks cfg (initState r stg t0) inps).simZeroCache).length ≤ 3)
    ∧ (∀ (cfg : MgrConfig) (st : MgrState) (inp : HookInput),
        st.stage ≤ inp.ledger.length →
        totalRewardsByAgent st.stage inp.ledger ≠ [] →
        alookupD (totalRewardsByAgent st.stage inp.ledger) cfg.peerId 0 ≤ 0 →
        st.round ∉ st.simZeroCache →
        st.simZeroCache.length = 3 →
        (hookAfterRewardsUpdated cfg st inp).st.simZeroCache =
          st.simZeroCache.drop 1 ++ [st.round]) := by
  constructor
  · intro cfg r stg t0 inps
    exact runHooks_cache_len cfg inps _ (by norm_num [initState])
  · intro cfg st inp h1 hm hle hnm hlen
    rw [hook_simZeroCache_agg cfg st inp h1 hm]
    exact aggregateCache_evict _ _ _ (not_lt.mpr hle) hnm hlen

/-- Witness for C2: a full cache of rounds 5, 6, 7 with a zero total for the
local peer evicts the oldest round 5 when round 0 is inserted. -/
theorem zero_cache_bound_fifo_witness :
    ((⟨0, 1, 0, false, [], [], [5, 6, 7], 0⟩ : MgrState).stage ≤
      ([[("q", [(0, [[(1:ℚ)]])])]] : Ledger).length ∧
     totalRewardsByAgent 1 [[("q", [(0, [[(1:ℚ)]])])]] ≠ [] ∧
     alookupD (totalRewardsByAgent 1 [[("q", [(0, [[(1:ℚ)]])])]]) "p" 0 ≤ 0 ∧
     (0:Int) ∉ ([5, 6, 7] : List Int) ∧
     ([5, 6, 7] : List Int).length = 3) ∧
    (hookAfterRewardsUpdated ⟨"p", 3⟩ (⟨0, 1, 0, false, [], [], [5, 6, 7], 0⟩ : MgrState)
      ⟨0, [[("q", [(0, [[(1:ℚ)]])])]], [], []⟩).st.simZeroCache = [6, 7, 0] := by
  have hm : totalRewardsByAgent 1 [[("q", [(0, [[(1:ℚ)]])])]] ≠ [] := by
    norm_num [totalRewardsByAgent, accumStage, addAgentRewards, sumBatch]
  have hle : alookupD (totalRewardsByAgent 1 [[("q", [(0, [[(1:ℚ)]])])]]) "p" 0 ≤ 0 := by
    norm_num [totalRewardsByAgent, accumStage, addAgentRewards, sumBatch, alookupD, alookup]
    decide
  have hnm : (0:Int) ∉ ([5, 6, 7] : List Int) := by decide
  refine ⟨⟨by norm_num, hm, hle, hnm, rfl⟩, ?_⟩
  rw [zero_cache_bound_fifo.2 ⟨"p", 3⟩ (⟨0, 1, 0, false, [], [], [5, 6, 7], 0⟩ : MgrState)
    ⟨0, [[("q", [(0, [[(1:ℚ)]])])]], [], []⟩ (by norm_num) hm hle hnm rfl]
  rfl

/-! ### Lookup lemmas for the tree map -/

theorem alookup_aupdate_self {α β : Type} [DecidableEq α] (m : List (α × β)) (a : α) (v : β) :
    alookup (aupdate m a v) a = some v := by
  induction m with
  | nil => simp [aupdate, alookup]
  | cons kw rest ih =>
    obtain ⟨k, w⟩ := kw
    by_cases h : a = k
    · simp [aupdate, alookup, h]
    · simp only [aupdate, if_neg h, alookup]
      exact ih

theorem alookup_aupdate_other {α β : Type} [DecidableEq α] (m : List (α × β)) (k : α) (v : β)
    (a : α) (h : a ≠ k) : alookup (aupdate m k v) a = alookup m a := by
  induction m with
  | nil => simp [aupdate, alookup, if_neg h]
  | cons kw rest ih =>
    obtain ⟨k', w⟩ := kw
    by_cases hk : k = k'
    · simp only [aupdate, if_pos hk, alookup]
      rw [hk] at h
      rw [if_neg h, if_neg h]
    · simp only [aupdate, if_neg hk, alookup]
      by_cases ha : a = k'
      · rw [if_pos ha, if_pos ha]
      · rw [if_neg ha, if_neg ha]
        exact ih

theorem alookup_append {α β : Type} [DecidableEq α] (l1 l2 : List (α × β)) (a : α) :
    alookup (l1 ++ l2) a =
      match alookup l1 a with
      | some v => some v
      | none => alookup l2 a := by
  induction l1 with
  | nil => simp [alookup]
  | cons kw rest ih =>
    obtain ⟨k, w⟩ := kw
    by_cases h : a = k
    · simp [alookup, h]
    · simp only [List.cons_append, alookup, if_neg h]
      exact ih

theorem ensureAgent_lookup_self (t : Trees) (agent : String) :
    alookup (ensureAgent t agent) agent = some ((alookup t agent).getD []) := by
  unfold ensureAgent
  cases h : alookup t agent with
  | none =>
    simp only [Option.isSome_none, Bool.false_eq_true, if_false]
    rw [alookup_append, h]
    simp [alookup]
  | some m =>
    simp only [Option.isSome_some, if_true]
    exact h

theorem ensureAgent_lookup_other (t : Trees) (agent a : String) (h : a ≠ agent) :
    alookup (ensureAgent t agent) a = alookup t a := by
  unfold ensureAgent
  split_ifs with hp
  · rfl
  · rw [alookup_append]
    cases ha : alookup t a with
    | none =>
      simp only [alookup, if_neg h]
    | some m => rfl

theorem ensure_lookup2_some (t : Trees) (agent : String) (bid : Int) (v : Option GTree)
    (h : lookup2 t agent bid = some v) :
    lookup2 (ensureBatch (ensureAgent t agent) agent bid) agent bid = some v := by
  have he := ensureAgent_lookup_self t agent
  have hin : alookup ((alookup t agent).getD []) bid = some v := by
    unfold lookup2 at h
    cases ha : alookup t agent with
    | none =>
      rw [ha] at h
      exact Option.noConfusion h
    | some m =>
      rw [ha] at h
      exact h
  unfold ensureBatch
  rw [he]
  simp only [Option.getD_some, hin, Option.isSome_some, if_true]
  unfold lookup2
  rw [he]
  exact hin

theorem ensure_lookup2_none (t : Trees) (agent : String) (bid : Int)
    (h : lookup2 t agent bid = none) :
    lookup2 (ensureBatch (ensureAgent t agent) agent bid) agent bid = some none := by
  have he := ensureAgent_lookup_self t agent
  have hin : alookup ((alookup t agent).getD []) bid = none := by
    unfold lookup2 at h
    cases ha : alookup t agent with
    | none => rfl
    | some m =>
      rw [ha] at h
      exact h
  unfold ensureBatch
  rw [he]
  simp only [Option.getD_some, hin, Option.isSome_none, Bool.false_eq_true, if_false]
  unfold lookup2
  rw [alookup_aupdate_self]
  show alookup (((alookup t agent).getD []) ++ [(bid, none)]) bid = some none
  rw [alookup_append, hin]
  simp [alookup]

theorem ensure_lookup2_other (t : Trees) (agent : String) (bid : Int) (a : String) (b : Int)
    (hne : ¬(a = agent ∧ b = bid)) :
    lookup2 (ensureBatch (ensureAgent t agent) agent bid) a b = lookup2 t a b := by
  by_cases ha : a = agent
  · subst ha
    have hb : b ≠ bid := fun hb => hne ⟨rfl, hb⟩
    have he := ensureAgent_lookup_self t a
    unfold ensureBatch
    rw [he]
    cases hin : alookup ((alookup t a).getD []) bid with
    | some v =>
      simp only [Option.getD_some, hin, Option.isSome_some, if_true]
      unfold lookup2
      rw [he]
      cases hta : alookup t a with
      | none => rfl
      | some m => rfl
    | none =>
      simp only [Option.getD_some, hin, Option.isSome_none, Bool.false_eq_true, if_false]
      unfold lookup2
      rw [alookup_aupdate_self]
      show alookup (((alookup t a).getD []) ++ [(bid, none)]) b = _
      rw [alookup_append]
      cases hta : alookup t a with
      | none =>
        simp [alookup, hb]
      | some m =>
        simp only [Option.getD_some]
        cases hm : alookup m b with
        | none => simp [alookup, hb]
        | some v => rfl
  · unfold ensureBatch
    split_ifs with hp
    · unfold lookup2
      rw [ensureAgent_lookup_other t agent a ha]
    · unfold lookup2
      rw [alookup_aupdate_other _ _ _ _ ha, ensureAgent_lookup_other t agent a ha]

theorem setTree_lookup2_self (t : Trees) (a : String) (b : Int) (v : Option GTree) :
    lookup2 (setTree t a b v) a b = some v := by
  unfold setTree lookup2
  rw [alookup_aupdate_self]
  show alookup (aupdate ((alookup t a).getD []) b v) b = some v
  exact alookup_aupdate_self _ _ _

theorem setTree_lookup2_other (t : Trees) (a' : String) (b' : Int) (v : Option GTree)
    (a : String) (b : Int) (hne : ¬(a = a' ∧ b = b')) :
    lookup2 (setTree t a' b' v) a b = lookup2 t a b := by
  unfold setTree lookup2
  by_cases ha : a = a'
  · subst ha
    have hb : b ≠ b' := fun hb => hne ⟨rfl, hb⟩
    rw [alookup_aupdate_self]
    show alookup (aupdate ((alookup t a).getD []) b' v) b = _
    rw [alookup_aupdate_other _ _ _ _ hb]
    cases h : alookup t a with
    | none => rfl
    | some m => rfl
  · rw [alookup_aupdate_other _ _ _ _ ha]

theorem spliceOne_lookup2_other (cfg : DMConfig) (stage : Nat) (t : Trees) (agent : String)
    (bid : Int) (p : TPayload) (a : String) (b : Int) (hne : ¬(a = agent ∧ b = bid)) :
    lookup2 (spliceOne cfg stage t agent bid p).1 a b = lookup2 t a b := by
  simp only [spliceOne]
  split_ifs with herr
  · exact ensure_lookup2_other t agent bid a b hne
  · cases h2 : lookup2 (ensureBatch (ensureAgent t agent) agent bid) agent bid with
    | none =>
      exact ensure_lookup2_other t agent bid a b hne
    | some v =>
      cases v with
      | none =>
        rw [setTree_lookup2_other _ _ _ _ _ _ hne]
        exact ensure_lookup2_other t agent bid a b hne
      | some gt =>
        exact ensure_lookup2_other t agent bid a b hne

/-! ### Freshness of transplant keys: only agents with no local tree entry -/

theorem scanItems_pred (cfg : DMConfig) (cap : Nat) (agent : String) (bid : Int)
    (P : String → Prop) (hP : P agent) :
    ∀ (items : List SwarmItem) (acc : TransMap), (∀ kp ∈ acc, P kp.1.1) →
      ∀ kp ∈ (scanItems cfg cap agent bid items acc).1, P kp.1.1 := by
  intro items
  induction items with
  | nil => intro acc hacc; exact hacc
  | cons item rest ih =>
    intro acc hacc
    cases item with
    | notPayload => exact ih acc hacc
    | payload p =>
      rw [scanItems]
      by_cases he : (numGenTruthy cfg && actionsOk cfg p) = true
      · rw [if_pos he]
        have hacc' : ∀ kp ∈ aupdate acc (agent, bid) p, P kp.1.1 := by
          intro kp hkp
          rcases aupdate_mem acc (agent, bid) p kp hkp with h | h
          · exact hacc kp h
          · rw [h]
            exact hP
        by_cases hcap : cap ≤ (aupdate acc (agent, bid) p).length
        · rw [if_pos hcap]
          exact hacc'
        · rw [if_neg hcap]
          exact ih _ hacc'
      · rw [if_neg he]
        exact ih acc hacc

theorem scanBatches_pred (cfg : DMConfig) (cap : Nat) (agent : String)
    (P : String → Prop) (hP : P agent) :
    ∀ (batches : List (BKey × BatchVal)) (acc : TransMap), (∀ kp ∈ acc, P kp.1.1) →
      ∀ kp ∈ (scanBatches cfg cap agent batches acc).1, P kp.1.1 := by
  intro batches
  induction batches with
  | nil => intro acc hacc; exact hacc
  | cons bb rest ih =>
    intro acc hacc
    obtain ⟨bk, bv⟩ := bb
    cases bk with
    | notInt => exact ih acc hacc
    | int bid =>
      cases bv with
      | notList => exact ih acc hacc
      | list items =>
        rw [scanBatches]
        rcases hsi : scanItems cfg cap agent bid items acc with ⟨acc', fl⟩
        have hacc' : ∀ kp ∈ acc', P kp.1.1 := by
          have := scanItems_pred cfg cap agent bid P hP items acc hacc
          rw [hsi] at this
          exact this
        cases fl
        · exact ih acc' hacc'
        · exact hacc'

theorem scanAgents_pred (cfg : DMConfig) (cap : Nat) (trees : Trees) :
    ∀ (swarm : SwarmStates) (acc : TransMap),
      (∀ kp ∈ acc, alookup trees kp.1.1 = none) →
      ∀ kp ∈ (scanAgents cfg cap trees swarm acc).1, alookup trees kp.1.1 = none := by
  intro swarm
  induction swarm with
  | nil => intro acc hacc; exact hacc
  | cons av rest ih =>
    intro acc hacc
    obtain ⟨ak, av⟩ := av
    cases ak with
    | notStr => exact ih acc hacc
    | str agent =>
      cases av with
      | notDict =>
        rw [scanAgents]
        split_ifs
        · exact ih acc hacc
        · exact ih acc hacc
      | dict batches =>
        rw [scanAgents]
        split_ifs with hfound
        · exact ih acc hacc
        · have hfresh : alookup trees agent = none := by
            cases h : alookup trees agent
            · rfl
            · rw [h] at hfound
              exact absurd rfl hfound
          rcases hsb : scanBatches cfg cap agent batches acc with ⟨acc', fl⟩
          have hacc' : ∀ kp ∈ acc', alookup trees kp.1.1 = none := by
            have := scanBatches_pred cfg cap agent (fun x => alookup trees x = none)
              hfresh batches acc hacc
            rw [hsb] at this
            exact this
          cases fl
          · exact ih acc' hacc'
          · exact hacc'

theorem transplant_keys_fresh (cfg : DMConfig) (trees : Trees) (swarm : SwarmStates)
    (cap : Nat) :
    ∀ kp ∈ transplant_trees cfg trees swarm cap, alookup trees kp.1.1 = none := by
  unfold transplant_trees
  exact scanAgents_pred cfg cap trees swarm [] (by intro kp h; cases h)

/-! ### The merge loop -/

theorem mergeAll_preserves_agent (cfg : DMConfig) (stage : Nat) (a : String) :
    ∀ (ts : TransMap), (∀ kp ∈ ts, kp.1.1 ≠ a) →
      ∀ (t : Trees) (b : Int), lookup2 (mergeAll cfg stage t ts).1 a b = lookup2 t a b := by
  intro ts
  induction ts with
  | nil => intro _ t b; rfl
  | cons hd rest ih =>
    intro hfresh t b
    obtain ⟨⟨a', b'⟩, p⟩ := hd
    have ha' : a' ≠ a := hfresh ((a', b'), p) (List.mem_cons_self _ _)
    have hne : ¬(a = a' ∧ b = b') := fun ⟨h, _⟩ => ha' h.symm
    rw [mergeAll]
    rcases hsp : spliceOne cfg stage t a' b' p with ⟨t', err⟩
    have hpres : lookup2 t' a b = lookup2 t a b := by
      have := spliceOne_lookup2_other cfg stage t a' b' p a b hne
      rw [hsp] at this
      exact this
    cases err with
    | some e => exact hpres
    | none =>
      rw [ih (fun kp hkp => hfresh kp (List.mem_cons_of_mem _ hkp)) t' b]
      exact hpres

theorem mergeAll_error (cfg : DMConfig) (stage : Nat) (a : String) (b : Int) :
    ∀ (ts : TransMap) (t : Trees) (p : TPayload),
      alookup ts (a, b) = some p →
      cfg.hashId p.world_state.question ≠ b →
      (∀ tr : GTree, lookup2 t a b ≠ some (some tr)) →
      (mergeAll cfg stage t ts).2.isSome = true ∧
      (∀ tr : GTree, lookup2 (mergeAll cfg stage t ts).1 a b ≠ some (some tr)) := by
  intro ts
  induction ts with
  | nil =>
    intro t p hmem
    cases hmem
  | cons hd rest ih =>
    intro t p hmem hne hno
    obtain ⟨⟨a', b'⟩, p'⟩ := hd
    by_cases hk : (a, b) = (a', b')
    · have hp : p' = p := by
        unfold alookup at hmem
        rw [if_pos hk] at hmem
        exact Option.some_inj.mp hmem
      subst hp
      obtain ⟨hae, hbe⟩ := Prod.mk.injEq a b a' b' ▸ hk
      subst hae
      subst hbe
      rw [mergeAll]
      have herr : spliceOne cfg stage t a b p' =
          (ensureBatch (ensureAgent t a) a b, some (MergeError.assertMismatch a b
            (cfg.hashId p'.world_state.question))) := by
        simp only [spliceOne]
        rw [if_pos hne]
      rw [herr]
      refine ⟨rfl, ?_⟩
      intro tr
      cases hl : lookup2 t a b with
      | none =>
        rw [ensure_lookup2_none t a b hl]
        intro hcon
        cases Option.some_inj.mp hcon
      | some v =>
        cases v with
        | some gt => exact absurd hl (hno gt)
        | none =>
          rw [ensure_lookup2_some t a b none hl]
          intro hcon
          cases Option.some_inj.mp hcon
    · have hmem' : alookup rest (a, b) = some p := by
        unfold alookup at hmem
        rw [if_neg hk] at hmem
        exact hmem
      rw [mergeAll]
      rcases hsp : spliceOne cfg stage t a' b' p' with ⟨t', err⟩
      have hne2 : ¬(a = a' ∧ b = b') := by
        intro ⟨h1, h2⟩
        exact hk (by rw [h1, h2])
      have hpres : lookup2 t' a b = lookup2 t a b := by
        have := spliceOne_lookup2_other cfg stage t a' b' p' a b hne2
        rw [hsp] at this
        exact this
      cases err with
      | some e =>
        refine ⟨rfl, ?_⟩
        intro tr
        rw [hpres]
        exact hno tr
      | none =>
        exact ih t' p hmem' hne (fun tr => hpres ▸ hno tr)

/-! ### C6: transplant merge is at-most-once per (agent, batch) pair -/

/-- C6: a pair whose agent already has a local tree entry is never touched by
a merge (so a new tree is only ever created where none exists), and in
particular re-running the merge with the same swarm state after a first merge
created a tree for a pair changes nothing for that pair. -/
theorem transplant_at_most_once :
    (∀ (cfg : DMConfig) (stage : Nat) (t : Trees) (swarm : SwarmStates) (a : String)
      (b : Int), (alookup t a).isSome = true →
      lookup2 (prepare_states cfg stage t swarm).1 a b = lookup2 t a b)
    ∧ (∀ (cfg : DMConfig) (stage : Nat) (t : Trees) (swarm : SwarmStates) (a : String)
      (b : Int) (tr : GTree), lookup2 t a b = some (some tr) →
      lookup2 (prepare_states cfg stage t swarm).1 a b = some (some tr))
    ∧ (∀ (cfg : DMConfig) (stage : Nat) (t t1 : Trees) (swarm : SwarmStates) (a : String)
        (b : Int) (tr : GTree),
        prepare_states cfg stage t swarm = (t1, none) →
        lookup2 t1 a b = some (some tr) →
        lookup2 (prepare_states cfg stage t1 swarm).1 a b = some (some tr)) := by
  have main : ∀ (cfg : DMConfig) (stage : Nat) (t : Trees) (swarm : SwarmStates)
      (a : String) (b : Int), (alookup t a).isSome = true →
      lookup2 (prepare_states cfg stage t swarm).1 a b = lookup2 t a b := by
    intro cfg stage t swarm a b ha
    unfold prepare_states
    split_ifs with hpos
    · apply mergeAll_preserves_agent cfg stage a
      intro kp hkp hka
      have hfresh := transplant_keys_fresh cfg t swarm cfg.numTransplantTrees kp hkp
      rw [hka] at hfresh
      rw [hfresh] at ha
      cases ha
    · rfl
  have keep : ∀ (cfg : DMConfig) (stage : Nat) (t : Trees) (swarm : SwarmStates)
      (a : String) (b : Int) (tr : GTree), lookup2 t a b = some (some tr) →
      lookup2 (prepare_states cfg stage t swarm).1 a b = some (some tr) := by
    intro cfg stage t swarm a b tr hl
    have ha : (alookup t a).isSome = true := by
      unfold lookup2 at hl
      cases h : alookup t a with
      | none =>
        rw [h] at hl
        cases hl
      | some m => rfl
    rw [main cfg stage t swarm a b ha, hl]
  refine ⟨main, keep, ?_⟩
  intro cfg stage t t1 swarm a b tr _ hl
  exact keep cfg stage t1 swarm a b tr hl

/-- Witness for C6: a first merge on empty local trees creates the tree for
(P, 1) from the single eligible artifact, and a second merge with the same
swarm state leaves that entry exactly as created. -/
theorem transplant_at_most_once_witness :
    prepare_states ⟨some 1, 1, fun s => (s.length : Int)⟩ 0 []
      [(AKey.str "P", AgentVal.dict [(BKey.int 1, BatchVal.list
        [SwarmItem.payload ⟨⟨"q", "ans"⟩, some (ActionsData.list [PyAction.str "x"]), 7⟩])])]
      = ([("P", [(1, some ⟨⟨"q", "ans"⟩, 0, some (ActionsData.list [PyAction.str "x"]), 7⟩)])],
         none) ∧
    lookup2 [("P", [(1, some (⟨⟨"q", "ans"⟩, 0, some (ActionsData.list [PyAction.str "x"]), 7⟩ : GTree))])]
      "P" 1 = some (some ⟨⟨"q", "ans"⟩, 0, some (ActionsData.list [PyAction.str "x"]), 7⟩) ∧
    lookup2 (prepare_states ⟨some 1, 1, fun s => (s.length : Int)⟩ 0
      [("P", [(1, some ⟨⟨"q", "ans"⟩, 0, some (ActionsData.list [PyAction.str "x"]), 7⟩)])]
      [(AKey.str "P", AgentVal.dict [(BKey.int 1, BatchVal.list
        [SwarmItem.payload ⟨⟨"q", "ans"⟩, some (ActionsData.list [PyAction.str "x"]), 7⟩])])]).1
      "P" 1 = some (some ⟨⟨"q", "ans"⟩, 0, some (ActionsData.list [PyAction.str "x"]), 7⟩) := by
  have h1 : prepare_states ⟨some 1, 1, fun s => (s.length : Int)⟩ 0 []
      [(AKey.str "P", AgentVal.dict [(BKey.int 1, BatchVal.list
        [SwarmItem.payload ⟨⟨"q", "ans"⟩, some (ActionsData.list [PyAction.str "x"]), 7⟩])])]
      = ([("P", [(1, some ⟨⟨"q", "ans"⟩, 0, some (ActionsData.list [PyAction.str "x"]), 7⟩)])],
         none) := by decide
  have h2 : lookup2 [("P", [(1, some (⟨⟨"q", "ans"⟩, 0, some (ActionsData.list [PyAction.str "x"]), 7⟩ : GTree))])]
      "P" 1 = some (some ⟨⟨"q", "ans"⟩, 0, some (ActionsData.list [PyAction.str "x"]), 7⟩) := by
    decide
  exact ⟨h1, h2, transplant_at_most_once.2.2 ⟨some 1, 1, fun s => (s.length : Int)⟩ 0 []
    _ _ "P" 1 _ h1 h2⟩

/-! ### C7: the batch-id integrity assert -/

/-- C7: an accepted transplant payload whose recomputed content id differs
from its batch key makes the merge surface the named AssertionError
(assertMismatch), and no tree holding that payload is ever spliced in at
that pair. -/
theorem transplant_hash_mismatch (cfg : DMConfig) (stage : Nat) (t : Trees)
    (swarm : SwarmStates) (a : String) (b : Int) (p : TPayload)
    (hmem : alookup (transplant_trees cfg t swarm cfg.numTransplantTrees) (a, b) = some p)
    (hne : cfg.hashId p.world_state.question ≠ b)
    (hpos : 0 < cfg.numTransplantTrees) :
    (prepare_states cfg stage t swarm).2.isSome = true ∧
    (∀ tr : GTree, lookup2 (prepare_states cfg stage t swarm).1 a b ≠ some (some tr)) := by
  unfold prepare_states
  rw [if_pos hpos]
  apply mergeAll_error cfg stage a b _ t p hmem hne
  have hfresh : alookup t a = none := by
    have := transplant_keys_fresh cfg t swarm cfg.numTransplantTrees ((a, b), p)
      (alookup_mem _ _ _ hmem)
    exact this
  intro tr h
  unfold lookup2 at h
  rw [hfresh] at h
  cases h

/-- Witness for C7: an artifact for batch key 5 whose recomputed hash is 99
makes the merge return the assertMismatch error and leaves the slot without
a tree. -/
theorem transplant_hash_mismatch_witness :
    alookup (transplant_trees ⟨some 1, 1, fun _ => 99⟩ []
      [(AKey.str "P", AgentVal.dict [(BKey.int 5, BatchVal.list
        [SwarmItem.payload ⟨⟨"q", "ans"⟩, some (ActionsData.list [PyAction.str "x"]), 0⟩])])]
      (⟨some 1, 1, fun _ => 99⟩ : DMConfig).numTransplantTrees) (("P", 5))
      = some ⟨⟨"q", "ans"⟩, some (ActionsData.list [PyAction.str "x"]), 0⟩ ∧
    ((99:Int) ≠ 5) ∧
    (prepare_states ⟨some 1, 1, fun _ => 99⟩ 0 []
      [(AKey.str "P", AgentVal.dict [(BKey.int 5, BatchVal.list
        [SwarmItem.payload ⟨⟨"q", "ans"⟩, some (ActionsData.list [PyAction.str "x"]), 0⟩])])]).2.isSome
      = true ∧
    (∀ tr : GTree, lookup2 (prepare_states ⟨some 1, 1, fun _ => 99⟩ 0 []
      [(AKey.str "P", AgentVal.dict [(BKey.int 5, BatchVal.list
        [SwarmItem.payload ⟨⟨"q", "ans"⟩, some (ActionsData.list [PyAction.str "x"]), 0⟩])])]).1
      "P" 5 ≠ some (some tr)) := by
  have hmem : alookup (transplant_trees ⟨some 1, 1, fun _ => 99⟩ []
      [(AKey.str "P", AgentVal.dict [(BKey.int 5, BatchVal.list
        [SwarmItem.payload ⟨⟨"q", "ans"⟩, some (ActionsData.list [PyAction.str "x"]), 0⟩])])]
      (⟨some 1, 1, fun _ => 99⟩ : DMConfig).numTransplantTrees) (("P", 5))
      = some ⟨⟨"q", "ans"⟩, some (ActionsData.list [PyAction.str "x"]), 0⟩ := by decide
  have h := transplant_hash_mismatch ⟨some 1, 1, fun _ => 99⟩ 0 []
    [(AKey.str "P", AgentVal.dict [(BKey.int 5, BatchVal.list
      [SwarmItem.payload ⟨⟨"q", "ans"⟩, some (ActionsData.list [PyAction.str "x"]), 0⟩])])]
    "P" 5 ⟨⟨"q", "ans"⟩, some (ActionsData.list [PyAction.str "x"]), 0⟩
    hmem (by decide) (by decide)
  exact ⟨hmem, by decide, h.1, h.2⟩

/-! ### C10: the transplant cap and the unset generation count -/

theorem scanItems_cap (cfg : DMConfig) (cap : Nat) (agent : String) (bid : Int) :
    ∀ (items : List SwarmItem) (acc : TransMap), acc.length < cap →
      (scanItems cfg cap agent bid items acc).1.length ≤ cap ∧
      ((scanItems cfg cap agent bid items acc).2 = false →
        (scanItems cfg cap agent bid items acc).1.length < cap) := by
  intro items
  induction items with
  | nil => intro acc h; exact ⟨le_of_lt h, fun _ => h⟩
  | cons item rest ih =>
    intro acc h
    cases item with
    | notPayload => exact ih acc h
    | payload p =>
      rw [scanItems]
      by_cases he : (numGenTruthy cfg && actionsOk cfg p) = true
      · rw [if_pos he]
        have hlen : (aupdate acc (agent, bid) p).length ≤ cap := by
          have := aupdate_length_le acc (agent, bid) p
          omega
        by_cases hcap : cap ≤ (aupdate acc (agent, bid) p).length
        · rw [if_pos hcap]
          exact ⟨hlen, fun hf => Bool.noConfusion hf⟩
        · rw [if_neg hcap]
          exact ih _ (not_le.mp hcap)
      · rw [if_neg he]
        exact ih acc h

theorem scanBatches_cap (cfg : DMConfig) (cap : Nat) (agent : String) :
    ∀ (batches : List (BKey × BatchVal)) (acc : TransMap), acc.length < cap →
      (scanBatches cfg cap agent batches acc).1.length ≤ cap ∧
      ((scanBatches cfg cap agent batches acc).2 = false →
        (scanBatches cfg cap agent batches acc).1.length < cap) := by
  intro batches
  induction batches with
  | nil => intro acc h; exact ⟨le_of_lt h, fun _ => h⟩
  | cons bb rest ih =>
    intro acc h
    obtain ⟨bk, bv⟩ := bb
    cases bk with
    | notInt => exact ih acc h
    | int bid =>
      cases bv with
      | notList => exact ih acc h
      | list items =>
        rw [scanBatches]
        rcases hsi : scanItems cfg cap agent bid items acc with ⟨acc', fl⟩
        have hiv := scanItems_cap cfg cap agent bid items acc h
        rw [hsi] at hiv
        cases fl
        · exact ih acc' (hiv.2 rfl)
        · exact ⟨hiv.1, fun hf => Bool.noConfusion hf⟩

theorem scanAgents_cap (cfg : DMConfig) (cap : Nat) (trees : Trees) :
    ∀ (swarm : SwarmStates) (acc : TransMap), acc.length < cap →
      (scanAgents cfg cap trees swarm acc).1.length ≤ cap ∧
      ((scanAgents cfg cap trees swarm acc).2 = false →
        (scanAgents cfg cap trees swarm acc).1.length < cap) := by
  intro swarm
  induction swarm with
  | nil => intro acc h; exact ⟨le_of_lt h, fun _ => h⟩
  | cons av rest ih =>
    intro acc h
    obtain ⟨ak, av⟩ := av
    cases ak with
    | notStr => exact ih acc h
    | str agent =>
      cases av with
      | notDict =>
        rw [scanAgents]
        split_ifs
        · exact ih acc h
        · exact ih acc h
      | dict batches =>
        rw [scanAgents]
        split_ifs with hfound
        · exact ih acc h
        · rcases hsb : scanBatches cfg cap agent batches acc with ⟨acc', fl⟩
          have hbv := scanBatches_cap cfg cap agent batches acc h
          rw [hsb] at hbv
          cases fl
          · exact ih acc' (hbv.2 rfl)
          · exact ⟨hbv.1, fun hf => Bool.noConfusion hf⟩

theorem scanItems_falsy (cfg : DMConfig) (cap : Nat) (agent : String) (bid : Int)
    (hng : numGenTruthy cfg = false) :
    ∀ (items : List SwarmItem) (acc : TransMap),
      scanItems cfg cap agent bid items acc = (acc, false) := by
  intro items
  induction items with
  | nil => intro acc; rfl
  | cons item rest ih =>
    intro acc
    cases item with
    | notPayload => exact ih acc
    | payload p =>
      rw [scanItems, hng]
      simp only [Bool.false_and, Bool.false_eq_true, if_false]
      exact ih acc

theorem scanBatches_falsy (cfg : DMConfig) (cap : Nat) (agent : String)
    (hng : numGenTruthy cfg = false) :
    ∀ (batches : List (BKey × BatchVal)) (acc : TransMap),
      scanBatches cfg cap agent batches acc = (acc, false) := by
  intro batches
  induction batches with
  | nil => intro acc; rfl
  | cons bb rest ih =>
    intro acc
    obtain ⟨bk, bv⟩ := bb
    cases bk with
    | notInt => exact ih acc
    | int bid =>
      cases bv with
      | notList => exact ih acc
      | list items =>
        rw [scanBatches, scanItems_falsy cfg cap agent bid hng items acc]
        exact ih acc

theorem scanAgents_falsy (cfg : DMConfig) (cap : Nat) (trees : Trees)
    (hng : numGenTruthy cfg = false) :
    ∀ (swarm : SwarmStates) (acc : TransMap),
      scanAgents cfg cap trees swarm acc = (acc, false) := by
  intro swarm
  induction swarm with
  | nil => intro acc; rfl
  | cons av rest ih =>
    intro acc
    obtain ⟨ak, av⟩ := av
    cases ak with
    | notStr => exact ih acc
    | str agent =>
      cases av with
      | notDict =>
        rw [scanAgents]
        split_ifs
        · exact ih acc
        · exact ih acc
      | dict batches =>
        rw [scanAgents]
        split_ifs with hfound
        · exact ih acc
        · rw [scanBatches_falsy cfg cap agent hng batches acc]
          exact ih acc

/-- C10 is false as literally stated: with num_transplants = 0 and a single
eligible artifact, transplant_trees still returns one pair, because the cap
is checked only after an insertion (data.py 315-317). -/
theorem transplant_cap_cex :
    (transplant_trees ⟨some 1, 1, fun _ => 0⟩ []
      [(AKey.str "P", AgentVal.dict [(BKey.int 5, BatchVal.list
        [SwarmItem.payload ⟨⟨"q", "a"⟩, some (ActionsData.list [PyAction.str "x"]), 0⟩])])]
      0).length = 1 ∧ ¬ ((1:Nat) ≤ 0) := by
  exact ⟨by decide, by decide⟩

/-- C10 (amended): if num_generations is unset (None or zero),
transplant_trees accepts no artifact and returns the empty result for every
swarm state; and whenever num_transplants is at least 1 (as its only call
site guarantees), the result holds at most num_transplants pairs. -/
theorem transplant_trees_cap :
    (∀ (cfg : DMConfig) (t : Trees) (swarm : SwarmStates) (cap : Nat),
      (cfg.numGenerations = none ∨ cfg.numGenerations = some 0) →
      transplant_trees cfg t swarm cap = [])
    ∧ (∀ (cfg : DMConfig) (t : Trees) (swarm : SwarmStates) (cap : Nat),
      1 ≤ cap → (transplant_trees cfg t swarm cap).length ≤ cap) := by
  constructor
  · intro cfg t swarm cap hng
    have hfalsy : numGenTruthy cfg = false := by
      unfold numGenTruthy
      rcases hng with h | h
      · rw [h]
      · rw [h]
        rfl
    unfold transplant_trees
    rw [scanAgents_falsy cfg cap t hfalsy swarm []]
  · intro cfg t swarm cap hcap
    unfold transplant_trees
    exact (scanAgents_cap cfg cap t swarm []
      (by simp only [List.length_nil]; omega)).1

/-- Witness for C10 (amended) at concrete inputs: an unset generation count
yields the empty result even with an otherwise eligible artifact, and with
cap 1 the result of an eligible scan has at most one pair. -/
theorem transplant_trees_cap_witness :
    ((⟨none, 1, fun _ => 0⟩ : DMConfig).numGenerations = none ∨
      (⟨none, 1, fun _ => 0⟩ : DMConfig).numGenerations = some 0) ∧
    transplant_trees ⟨none, 1, fun _ => 0⟩ []
      [(AKey.str "P", AgentVal.dict [(BKey.int 5, BatchVal.list
        [SwarmItem.payload ⟨⟨"q", "a"⟩, some (ActionsData.list [PyAction.str "x"]), 0⟩])])]
      1 = [] ∧
    (1 ≤ 1) ∧
    (transplant_trees ⟨some 1, 1, fun _ => 0⟩ []
      [(AKey.str "P", AgentVal.dict [(BKey.int 5, BatchVal.list
        [SwarmItem.payload ⟨⟨"q", "a"⟩, some (ActionsData.list [PyAction.str "x"]), 0⟩])])]
      1).length ≤ 1 := by
  refine ⟨Or.inl rfl, ?_, le_refl 1, ?_⟩
  · exact transplant_trees_cap.1 ⟨none, 1, fun _ => 0⟩ _ _ 1 (Or.inl rfl)
  · exact transplant_trees_cap.2 ⟨some 1, 1, fun _ => 0⟩ _ _ 1 (le_refl 1)

end RGym
